import Mathlib

/-!
Verification of the `ungod` light/shadow subsystem (`Light.h` / `Light.cpp`):
a shallow embedding of the penumbra geometry engine (`PointLight::getPenumbrasPoint`),
the per-light render pass (`PointLight::render`), the penumbra unmasking helper
(`BaseLight::unmaskWithPenumbras`), the flicker affectors and the ambient color
interpolator, together with theorems checking the specification's statements
about them.

Scalars are embedded as `ℚ`.  To keep every definition evaluable by the kernel,
rational arithmetic is expressed through `mkRat`-based operations `qadd`, `qsub`,
`qmul`, `qdiv`, `qneg`; the bridge lemmas `qadd_eq` … prove them equal to the
ordinary field operations on `ℚ`.

The external vector-math helpers `normalize` / `normalizeVector` (which divide
by an irrational Euclidean norm) and `std::acos` are passed as explicit function
parameters `nv : Vec2 → Vec2` and `acosQ : ℚ → ℚ`; the specification's §2
classifies vector math as an external/shared utility.  For concrete evaluation
`exactNormalize` is used: on vectors whose squared norm is a perfect rational
square it agrees exactly with the C++ `normalizeVector`, and the concrete inputs
below are chosen so that every normalization whose value (not merely sign)
matters is of that form.  All other definitions are translated directly from
the source.
-/

namespace Ungod

/-- Kernel-evaluable addition on `ℚ` (cross-multiplied, normalized by `mkRat`). -/
def qadd (a b : ℚ) : ℚ := mkRat (a.num * b.den + b.num * a.den) (a.den * b.den)

/-- Kernel-evaluable subtraction on `ℚ`. -/
def qsub (a b : ℚ) : ℚ := mkRat (a.num * b.den - b.num * a.den) (a.den * b.den)

/-- Kernel-evaluable multiplication on `ℚ`. -/
def qmul (a b : ℚ) : ℚ := mkRat (a.num * b.num) (a.den * b.den)

/-- Kernel-evaluable division on `ℚ` (division by zero yields 0, as for `/`). -/
def qdiv (a b : ℚ) : ℚ := mkRat (a.num * b.den * b.num.sign) (a.den * b.num.natAbs)

/-- Kernel-evaluable negation on `ℚ`. -/
def qneg (a : ℚ) : ℚ := mkRat (-a.num) a.den

theorem qadd_eq (a b : ℚ) : qadd a b = a + b := by
  unfold qadd
  rw [Rat.mkRat_eq_div]
  have da : ((a.den : ℚ)) ≠ 0 := by exact_mod_cast a.den_nz
  have db : ((b.den : ℚ)) ≠ 0 := by exact_mod_cast b.den_nz
  conv_rhs => rw [← Rat.num_div_den a, ← Rat.num_div_den b]
  push_cast
  field_simp

theorem qsub_eq (a b : ℚ) : qsub a b = a - b := by
  unfold qsub
  rw [Rat.mkRat_eq_div]
  have da : ((a.den : ℚ)) ≠ 0 := by exact_mod_cast a.den_nz
  have db : ((b.den : ℚ)) ≠ 0 := by exact_mod_cast b.den_nz
  conv_rhs => rw [← Rat.num_div_den a, ← Rat.num_div_den b]
  push_cast
  rw [div_sub_div _ _ da db]
  ring_nf

theorem qmul_eq (a b : ℚ) : qmul a b = a * b := by
  unfold qmul
  rw [Rat.mkRat_eq_div]
  have da : ((a.den : ℚ)) ≠ 0 := by exact_mod_cast a.den_nz
  have db : ((b.den : ℚ)) ≠ 0 := by exact_mod_cast b.den_nz
  conv_rhs => rw [← Rat.num_div_den a, ← Rat.num_div_den b]
  push_cast
  rw [div_mul_div_comm]

theorem qdiv_eq (a b : ℚ) : qdiv a b = a / b := by
  unfold qdiv
  rw [Rat.mkRat_eq_div]
  have da : ((a.den : ℚ)) ≠ 0 := by exact_mod_cast a.den_nz
  have db : ((b.den : ℚ)) ≠ 0 := by exact_mod_cast b.den_nz
  rcases lt_trichotomy b.num 0 with hb | hb | hb
  · rw [Int.sign_eq_neg_one_of_neg hb]
    have hnab : ((b.num.natAbs : ℤ)) = -b.num := by
      rw [← Int.natAbs_neg]; exact Int.natAbs_of_nonneg (by omega)
    have hnabQ : ((b.num.natAbs : ℚ)) = -(b.num : ℚ) := by
      rw [show ((b.num.natAbs : ℚ)) = (((b.num.natAbs : ℤ)) : ℚ) by rw [Int.cast_natCast],
        hnab]
      push_cast
      ring
    conv_rhs => rw [← Rat.num_div_den a, ← Rat.num_div_den b]
    push_cast [hnabQ]
    have hbn : ((b.num : ℚ)) ≠ 0 := by exact_mod_cast ne_of_lt hb
    field_simp
    try ring
  · have hb0 : b = 0 := Rat.num_eq_zero.mp hb
    subst hb0
    simp
  · rw [Int.sign_eq_one_of_pos hb]
    have hnab : ((b.num.natAbs : ℤ)) = b.num := Int.natAbs_of_nonneg (le_of_lt hb)
    have hnabQ : ((b.num.natAbs : ℚ)) = (b.num : ℚ) := by
      rw [show ((b.num.natAbs : ℚ)) = (((b.num.natAbs : ℤ)) : ℚ) by rw [Int.cast_natCast],
        hnab]
    conv_rhs => rw [← Rat.num_div_den a, ← Rat.num_div_den b]
    push_cast [hnabQ]
    have hbn : ((b.num : ℚ)) ≠ 0 := by exact_mod_cast (ne_of_gt hb)
    rw [mul_one]
    field_simp
    try ring

theorem qneg_eq (a : ℚ) : qneg a = -a := by
  unfold qneg
  rw [Rat.mkRat_eq_div]
  have da : ((a.den : ℚ)) ≠ 0 := by exact_mod_cast a.den_nz
  conv_rhs => rw [← Rat.num_div_den a]
  push_cast
  rw [neg_div]

/-- 2D vector over ℚ, embedding `sf::Vector2f`. -/
structure Vec2 where
  x : ℚ
  y : ℚ
deriving DecidableEq, Repr

/-- Component-wise vector addition. -/
def vadd (a b : Vec2) : Vec2 := ⟨qadd a.x b.x, qadd a.y b.y⟩

/-- Component-wise vector subtraction. -/
def vsub (a b : Vec2) : Vec2 := ⟨qsub a.x b.x, qsub a.y b.y⟩

/-- Scalar multiple of a vector. -/
def vsmul (k : ℚ) (a : Vec2) : Vec2 := ⟨qmul k a.x, qmul k a.y⟩

instance : Add Vec2 := ⟨vadd⟩
instance : Sub Vec2 := ⟨vsub⟩
instance : SMul ℚ Vec2 := ⟨vsmul⟩
instance : Zero Vec2 := ⟨⟨0, 0⟩⟩

/-- `dotProduct` from the physics helpers. -/
def dotProduct (a b : Vec2) : ℚ := qadd (qmul a.x b.x) (qmul a.y b.y)

/-- The perpendicular `{-v.y, v.x}` used throughout `getPenumbrasPoint`. -/
def perp (v : Vec2) : Vec2 := ⟨qneg v.y, v.x⟩

/-- Fuel-driven binary search for the integer square root (evaluable by the
kernel, unlike `Nat.sqrt`): maintains `lo² ≤ n < hi²`. -/
def isqrtGo (n : ℕ) : ℕ → ℕ → ℕ → ℕ
  | 0, lo, _ => lo
  | f + 1, lo, hi =>
    if lo + 1 < hi then
      let mid := (lo + hi) / 2
      if mid * mid ≤ n then isqrtGo n f mid hi else isqrtGo n f lo mid
    else lo

/-- Integer square root by binary search (rounds down). -/
def isqrt (n : ℕ) : ℕ := isqrtGo n (n + 2) 0 (n + 1)

/-- Exact square root of a rational if it is a perfect square, else `none`. -/
def ratSqrt (q : ℚ) : Option ℚ :=
  if 0 ≤ q.num then
    let rn := isqrt q.num.toNat
    let rd := isqrt q.den
    if (rn * rn : ℤ) = q.num ∧ rd * rd = q.den then some (mkRat rn rd) else none
  else none

/-- Concrete instance of the external `normalizeVector`: exact on vectors whose
norm is rational (it then agrees with the C++ helper), identity otherwise and on
the zero vector (the zero-length guard of the C++ `normalize`). -/
def exactNormalize (v : Vec2) : Vec2 :=
  match ratSqrt (qadd (qmul v.x v.x) (qmul v.y v.y)) with
  | some n => if n = 0 then v else ⟨qdiv v.x n, qdiv v.y n⟩
  | none => v

/-- Affine 2D transform (the 2×3 part of `sf::Transform`):
`transformPoint (x, y) = (a x + b y + c, d x + e y + f)`. -/
structure Transf where
  a : ℚ
  b : ℚ
  c : ℚ
  d : ℚ
  e : ℚ
  f : ℚ
deriving DecidableEq, Repr

def Transf.transformPoint (t : Transf) (v : Vec2) : Vec2 :=
  ⟨qadd (qadd (qmul t.a v.x) (qmul t.b v.y)) t.c,
   qadd (qadd (qmul t.d v.x) (qmul t.e v.y)) t.f⟩

/-- Composition as in `sf::Transform::combine`: `(comp t u).transformPoint p =
t.transformPoint (u.transformPoint p)` (apply `u` first). -/
def Transf.comp (t u : Transf) : Transf :=
  ⟨qadd (qmul t.a u.a) (qmul t.b u.d), qadd (qmul t.a u.b) (qmul t.b u.e),
   qadd (qadd (qmul t.a u.c) (qmul t.b u.f)) t.c,
   qadd (qmul t.d u.a) (qmul t.e u.d), qadd (qmul t.d u.b) (qmul t.e u.e),
   qadd (qadd (qmul t.d u.c) (qmul t.e u.f)) t.f⟩

/-- Identity transform. -/
def Transf.ident : Transf := ⟨1, 0, 0, 0, 1, 0⟩

theorem Transf.comp_transformPoint (t u : Transf) (v : Vec2) :
    (Transf.comp t u).transformPoint v = t.transformPoint (u.transformPoint v) := by
  simp only [Transf.comp, Transf.transformPoint, Vec2.mk.injEq, qadd_eq, qmul_eq]
  constructor <;> ring

/-- Color with integer channels, embedding `sf::Color` (alpha omitted; the code
only uses fully opaque colors). -/
structure Color where
  r : ℤ
  g : ℤ
  b : ℤ
deriving DecidableEq, Repr

def Color.black : Color := ⟨0, 0, 0⟩
def Color.white : Color := ⟨255, 255, 255⟩
def Color.red : Color := ⟨255, 0, 0⟩

/-- The transient `Penumbra` wedge (`Light.h`).  The `distance` field exists in
the struct but is never written nor read in the base pipeline; it is modelled
as the constant 0. -/
structure Penumbra where
  source : Vec2
  lightEdge : Vec2
  darkEdge : Vec2
  lightBrightness : ℚ
  darkBrightness : ℚ
  distance : ℚ := 0
deriving DecidableEq, Repr

/-- Last element of `prev :: l` (total). -/
def lastB (prev : Bool) : List Bool → Bool
  | [] => prev
  | b :: rest => lastB b rest

/-- The boundary-detection scan of `getPenumbrasPoint` (the loops at
`Light.cpp:421-428` / `438-445`): walking the facing flags from position `i`
with predecessor flag `prev`, each sign flip records `(index, newFlag)` —
`newFlag` is the winding pushed alongside. -/
def scanFlips (i : ℕ) (prev : Bool) : List Bool → List (ℕ × Bool)
  | [] => []
  | b :: rest =>
    if b ≠ prev then (i, b) :: scanFlips (i + 1) b rest else scanFlips (i + 1) b rest

/-- Full boundary detection on a cyclic facing-flag list: the adjacent scan from
index 1 plus the separate wrap check between index 0 and the last index
(`Light.cpp:431-435` / `448-452`). -/
def boundaryScan : List Bool → List (ℕ × Bool)
  | [] => []
  | f0 :: rest =>
    scanFlips 1 f0 rest ++ (if f0 = lastB f0 rest then [] else [(0, f0)])

theorem scanFlips_length_parity (l : List Bool) :
    ∀ (i : ℕ) (prev : Bool),
      (scanFlips i prev l).length % 2 = (if lastB prev l = prev then 0 else 1) := by
  induction l with
  | nil => intro i prev; simp [scanFlips, lastB]
  | cons b rest ih =>
    intro i prev
    by_cases hb : b = prev
    · subst hb
      simp only [scanFlips, lastB, ne_eq, not_true_eq_false, if_false, ite_false]
      simpa using ih (i + 1) b
    · have hlast : lastB prev (b :: rest) = lastB b rest := rfl
      simp only [scanFlips, ne_eq, hb, not_false_iff, if_true, List.length_cons, hlast]
      have ih2 := ih (i + 1) b
      by_cases hl : lastB b rest = b
      · rw [if_pos hl] at ih2
        have hne2 : lastB b rest ≠ prev := by rw [hl]; exact hb
        rw [if_neg hne2]
        omega
      · rw [if_neg hl] at ih2
        have heq : lastB b rest = prev := by
          revert hb hl
          cases lastB b rest <;> cases prev <;> cases b <;> simp
        rw [if_pos heq]
        omega

/-- The boundary scan always records an even number of flips: a cyclic boolean
sequence has an even number of sign changes. -/
theorem boundaryScan_length_even (f : List Bool) : Even (boundaryScan f).length := by
  cases f with
  | nil => simp [boundaryScan]
  | cons f0 rest =>
    have h := scanFlips_length_parity rest 1 f0
    have hbs : boundaryScan (f0 :: rest) =
        scanFlips 1 f0 rest ++ (if f0 = lastB f0 rest then [] else [(0, f0)]) := rfl
    rw [hbs]
    by_cases hw : f0 = lastB f0 rest
    · rw [if_pos hw, List.append_nil]
      rw [if_pos hw.symm] at h
      exact Nat.even_iff.mpr h
    · rw [if_neg hw]
      have hne : lastB f0 rest ≠ f0 := fun hc => hw hc.symm
      rw [if_neg hne] at h
      rw [List.length_append]
      simp only [List.length_cons, List.length_nil]
      rw [Nat.even_iff]
      omega

/-- The two tangent ("edge") rays of `Light.cpp:389-404`: offset the source by
the normalized perpendicular of source-to-point scaled by the light radius, in
both signs.  Returns `(firstEdgeRay, secondEdgeRay)`. -/
def offsetRays (nv : Vec2 → Vec2) (S : Vec2) (radius : ℚ) (pt : Vec2) : Vec2 × Vec2 :=
  let sourceToPoint := pt - S
  let perpendicularOffset := radius • nv (perp sourceToPoint)
  (pt - (S - perpendicularOffset), pt - (S + perpendicularOffset))

/-- Facing classification of vertex `i` (`Light.cpp:379-418`): the pair
`(facingFrontBothEdges, facingFrontOneEdge)`. -/
def facingFlags (nv : Vec2 → Vec2) (S : Vec2) (radius : ℚ)
    (tpts : List Vec2) (n : ℕ) (i : ℕ) : Bool × Bool :=
  let point := tpts.getD i 0
  let nextPoint := tpts.getD (if i < n - 1 then i + 1 else 0) 0
  let er := offsetRays nv S radius point
  let nr := offsetRays nv S radius nextPoint
  let normal := nv (perp (nextPoint - point))
  let firstEdgeDot := dotProduct er.1 normal
  let secondEdgeDot := dotProduct er.2 normal
  let firstNextEdgeDot := dotProduct nr.1 normal
  let secondNextEdgeDot := dotProduct nr.2 normal
  ((decide (0 < firstEdgeDot) && decide (0 < secondEdgeDot)) ||
     (decide (0 < firstNextEdgeDot) && decide (0 < secondNextEdgeDot)),
   decide (0 < firstEdgeDot) || decide (0 < secondEdgeDot) ||
     decide (0 < firstNextEdgeDot) || decide (0 < secondNextEdgeDot))

/-- State of the penumbra chain walk (`Light.cpp:490-648`): the loop-local
variables together with the output vectors the loop reads and writes. -/
structure WalkState where
  penumbraIndex : ℕ
  point : Vec2
  outerBoundaryVector : Vec2
  hasPrevPenumbra : Bool
  prevPenumbraLightEdgeVector : Vec2
  prevBrightness : ℚ
  penumbras : List Penumbra
  innerVectors : List Vec2
  outerIndices : List ℕ
  outerVectors : List Vec2
deriving DecidableEq, Repr

/-- The two `std::swap` calls with `penumbras.back()` (`Light.cpp:538-539` etc.):
exchange the pending wedge's brightness pair with the last emitted wedge's.
`back()` on an empty vector is undefined in C++; here the swap is skipped, and
the walk only reaches it with `hasPrevPenumbra` set, which implies a previous
wedge exists. -/
def swapBrightnessWithLast (ps : List Penumbra) (db lb : ℚ) : List Penumbra × ℚ × ℚ :=
  match ps.getLast? with
  | none => (ps, db, lb)
  | some lastW =>
    (ps.dropLast ++ [{ lastW with darkBrightness := db, lightBrightness := lb }],
     lastW.darkBrightness, lastW.lightBrightness)

/-- `nextPointIndex` of `Light.cpp:499`. -/
def wsNextIndex (n : ℕ) (st : WalkState) : ℕ :=
  if st.penumbraIndex < n - 1 then st.penumbraIndex + 1 else 0

/-- `prevPointIndex` of `Light.cpp:503`. -/
def wsPrevIndex (n : ℕ) (st : WalkState) : ℕ :=
  if 0 < st.penumbraIndex then st.penumbraIndex - 1 else n - 1

/-- `penumbra.lightEdge` of `Light.cpp:512` / `580`: the previous wedge's chain
vector when one exists, else the last inner boundary vector. -/
def wsLightEdge (st : WalkState) : Vec2 :=
  if st.hasPrevPenumbra then st.prevPenumbraLightEdgeVector
  else st.innerVectors.getLastD 0

/-- The edge-to-neighbor vector the walk measures against: `pointToNextPoint`
for winding `false`, `pointToPrevPoint` for winding `true`. -/
def wsStepVec (tpts : List Vec2) (n : ℕ) (winding : Bool) (st : WalkState) : Vec2 :=
  if winding then tpts.getD (wsPrevIndex n st) 0 - st.point
  else tpts.getD (wsNextIndex n st) 0 - st.point

/-- `intersectionAngle` of `Light.cpp:524` / `592`. -/
def wsIAngle (nv : Vec2 → Vec2) (acosQ : ℚ → ℚ) (tpts : List Vec2) (n : ℕ)
    (winding : Bool) (st : WalkState) : ℚ :=
  acosQ (dotProduct (nv (wsLightEdge st)) (nv (wsStepVec tpts n winding st)))

/-- `penumbraAngle` of `Light.cpp:525` / `593`. -/
def wsPAngle (nv : Vec2 → Vec2) (acosQ : ℚ → ℚ) (st : WalkState) : ℚ :=
  acosQ (dotProduct (nv (wsLightEdge st)) (nv st.outerBoundaryVector))

/-- One iteration of the penumbra chain walk (`Light.cpp:497-648`), both winding
directions.  Returns the new state and whether the walk continues (in the source
the walk stops by setting `penumbraIndex = -1`). -/
def walkStep (nv : Vec2 → Vec2) (acosQ : ℚ → ℚ) (S : Vec2) (radius : ℚ)
    (tpts : List Vec2) (n : ℕ) (winding : Bool) (st : WalkState) : WalkState × Bool :=
  let nextPointIndex := wsNextIndex n st
  let prevPointIndex := wsPrevIndex n st
  let lightEdge := wsLightEdge st
  let darkEdge := st.outerBoundaryVector
  let stepVec := wsStepVec tpts n winding st
  let slot := if winding then 1 else 0
  if wsIAngle nv acosQ tpts n winding st < wsPAngle nv acosQ st then
    let ratio := qdiv (wsIAngle nv acosQ tpts n winding st) (wsPAngle nv acosQ st)
    let newIndex := if winding then prevPointIndex else nextPointIndex
    let sw := if st.hasPrevPenumbra then swapBrightnessWithLast st.penumbras ratio st.prevBrightness
              else (st.penumbras, ratio, st.prevBrightness)
    let wedge : Penumbra :=
      { source := st.point, lightEdge := lightEdge, darkEdge := stepVec,
        lightBrightness := sw.2.2, darkBrightness := sw.2.1 }
    let newPoint := tpts.getD newIndex 0
    let off := radius • nv (perp (newPoint - S))
    let newObv := if winding then newPoint - (S + off) else newPoint - (S - off)
    let outerIndices' := if st.outerVectors = [] then st.outerIndices
                         else st.outerIndices.set slot newIndex
    let outerVectors' := if st.outerVectors = [] then st.outerVectors
                         else st.outerVectors.set slot stepVec
    ({ penumbraIndex := newIndex, point := newPoint, outerBoundaryVector := newObv,
       hasPrevPenumbra := true, prevPenumbraLightEdgeVector := stepVec,
       prevBrightness := ratio, penumbras := sw.1 ++ [wedge],
       innerVectors := st.innerVectors, outerIndices := outerIndices',
       outerVectors := outerVectors' }, true)
  else
    let sw := if st.hasPrevPenumbra then swapBrightnessWithLast st.penumbras 0 st.prevBrightness
              else (st.penumbras, 0, st.prevBrightness)
    let wedge : Penumbra :=
      { source := st.point, lightEdge := lightEdge, darkEdge := darkEdge,
        lightBrightness := sw.2.2, darkBrightness := sw.2.1 }
    let outerIndices' := if st.outerVectors = [] then st.outerIndices
                         else st.outerIndices.set slot st.penumbraIndex
    let outerVectors' := if st.outerVectors = [] then st.outerVectors
                         else st.outerVectors.set slot darkEdge
    ({ st with
        hasPrevPenumbra := false,
        penumbras := sw.1 ++ [wedge],
        outerIndices := outerIndices',
        outerVectors := outerVectors' }, false)

/-- The full walk, with fuel: the `while (penumbraIndex != -1)` loop of the
source has no structural bound (termination is geometric), so the embedding
runs at most `fuel` iterations. -/
def walkRun (nv : Vec2 → Vec2) (acosQ : ℚ → ℚ) (S : Vec2) (radius : ℚ)
    (tpts : List Vec2) (n : ℕ) (winding : Bool) : ℕ → WalkState → WalkState
  | 0, st => st
  | fuel + 1, st =>
    let r := walkStep nv acosQ S radius tpts n winding st
    if r.2 then walkRun nv acosQ S radius tpts n winding fuel r.1 else r.1

/-- Accumulator threaded through the per-inner-boundary-vertex loop
(`Light.cpp:470-649`). -/
structure ChainAcc where
  penumbras : List Penumbra
  innerVectors : List Vec2
  outerIndices : List ℕ
  outerVectors : List Vec2
deriving DecidableEq, Repr

/-- One iteration of the loop over inner boundary vertices (`Light.cpp:470-649`):
compute the inner boundary vectors for this vertex, then run the chain walk.
`ibiLen` is `innerBoundaryIndices.size()`, used by the (unreachable, see
`boundaryScan_length_even`) size-one special case at `Light.cpp:485-488`. -/
def innerChain (nv : Vec2 → Vec2) (acosQ : ℚ → ℚ) (fuel : ℕ) (S : Vec2) (radius : ℚ)
    (tpts : List Vec2) (n : ℕ) (ibiLen : ℕ) (acc : ChainAcc) (pair : ℕ × Bool) : ChainAcc :=
  let idx := pair.1
  let winding := pair.2
  let point := tpts.getD idx 0
  let off := radius • nv (perp (point - S))
  let firstEdgeRay := point - (S + off)
  let secondEdgeRay := point - (S - off)
  let ibv1 := acc.innerVectors ++ [if winding then secondEdgeRay else firstEdgeRay]
  let outerBoundaryVector := if winding then firstEdgeRay else secondEdgeRay
  let ibv2 := if ibiLen = 1 then ibv1 ++ [outerBoundaryVector] else ibv1
  let st0 : WalkState :=
    { penumbraIndex := idx, point := point, outerBoundaryVector := outerBoundaryVector,
      hasPrevPenumbra := false, prevPenumbraLightEdgeVector := 0, prevBrightness := 1,
      penumbras := acc.penumbras, innerVectors := ibv2,
      outerIndices := acc.outerIndices, outerVectors := acc.outerVectors }
  let st1 := walkRun nv acosQ S radius tpts n winding fuel st0
  ⟨st1.penumbras, st1.innerVectors, st1.outerIndices, st1.outerVectors⟩

/-- The five in-out vectors of `PointLight::getPenumbrasPoint`. -/
structure GPResult where
  penumbras : List Penumbra
  innerIndices : List ℕ
  innerVectors : List Vec2
  outerIndices : List ℕ
  outerVectors : List Vec2
deriving DecidableEq, Repr

/-- The light data `getPenumbrasPoint` reads: `getCastCenter()` (the sprite
transform applied to the source point — external sprite state, embedded as the
value it returns) and `mRadius`. -/
structure PointLightG where
  castCenter : Vec2
  radius : ℚ
deriving DecidableEq, Repr

/-- `sourceCenter` of `Light.cpp:360`: the light transform applied to the cast
center. -/
def gpSourceCenter (light : PointLightG) (lightTransform : Transf) : Vec2 :=
  lightTransform.transformPoint light.castCenter

/-- The collider points after the composed local transform (`Light.cpp:363-364`,
`381-382`): the source composes `collider.getTransform()` with the entity
transform in this order, applying the entity transform first. -/
def gpTpts (colliderPoints : List Vec2) (colliderLocalTransf colliderTransform : Transf) :
    List Vec2 :=
  colliderPoints.map (Transf.comp colliderLocalTransf colliderTransform).transformPoint

/-- The facing-classification lists of `Light.cpp:372-418`, one
`(bothEdges, oneEdge)` pair per vertex. -/
def gpFlags (nv : Vec2 → Vec2) (light : PointLightG) (colliderPoints : List Vec2)
    (colliderLocalTransf colliderTransform lightTransform : Transf) : List (Bool × Bool) :=
  (List.range colliderPoints.length).map
    (facingFlags nv (gpSourceCenter light lightTransform) light.radius
      (gpTpts colliderPoints colliderLocalTransf colliderTransform)
      colliderPoints.length)

/-- Inner boundary `(index, winding)` pairs (`Light.cpp:421-435`). -/
def gpInnerPairs (nv : Vec2 → Vec2) (light : PointLightG) (colliderPoints : List Vec2)
    (colliderLocalTransf colliderTransform lightTransform : Transf) : List (ℕ × Bool) :=
  boundaryScan ((gpFlags nv light colliderPoints colliderLocalTransf colliderTransform
    lightTransform).map Prod.fst)

/-- Outer boundary `(index, winding)` pairs (`Light.cpp:438-452`). -/
def gpOuterPairs (nv : Vec2 → Vec2) (light : PointLightG) (colliderPoints : List Vec2)
    (colliderLocalTransf colliderTransform lightTransform : Transf) : List (ℕ × Bool) :=
  boundaryScan ((gpFlags nv light colliderPoints colliderLocalTransf colliderTransform
    lightTransform).map Prod.snd)

/-- `PointLight::getPenumbrasPoint` (`Light.cpp:351-650`).  The collider is
given by its point list and its local transform (`collider.getTransform()`).
The source appends to the passed-in vectors; the loops over boundary vertices
read index and winding lists in lockstep, embedded as `zip` (the render path
always passes empty initial vectors, for which this is exact). -/
def getPenumbrasPoint (nv : Vec2 → Vec2) (acosQ : ℚ → ℚ) (fuel : ℕ)
    (light : PointLightG) (colliderPoints : List Vec2) (colliderLocalTransf : Transf)
    (colliderTransform lightTransform : Transf)
    (pen0 : List Penumbra) (ibi0 : List ℕ) (ibv0 : List Vec2)
    (obi0 : List ℕ) (obv0 : List Vec2) : GPResult :=
  if colliderPoints.length = 0 then ⟨pen0, ibi0, ibv0, obi0, obv0⟩
  else
    let sourceCenter := gpSourceCenter light lightTransform
    let numPoints := colliderPoints.length
    let tpts := gpTpts colliderPoints colliderLocalTransf colliderTransform
    let innerPairs := gpInnerPairs nv light colliderPoints colliderLocalTransf
      colliderTransform lightTransform
    let outerPairs := gpOuterPairs nv light colliderPoints colliderLocalTransf
      colliderTransform lightTransform
    let ibi := ibi0 ++ innerPairs.map Prod.fst
    let obi := obi0 ++ outerPairs.map Prod.fst
    let obv := obv0 ++ (obi.zip (outerPairs.map Prod.snd)).map (fun p =>
      let point := tpts.getD p.1 0
      let off := light.radius • nv (perp (point - sourceCenter))
      if p.2 then point - (sourceCenter + off) else point - (sourceCenter - off))
    let acc0 : ChainAcc := ⟨pen0, ibv0, obi, obv⟩
    let accF := (ibi.zip (innerPairs.map Prod.snd)).foldl
      (innerChain nv acosQ fuel sourceCenter light.radius tpts numPoints ibi.length) acc0
    ⟨accF.penumbras, ibi, accF.innerVectors, accF.outerIndices, accF.outerVectors⟩

/-- Modelled from the spec: `rayIntersect` is declared in the repository's
physics module, which is not under `src/`.  Per §4.3 it tests "whether the two
outer boundary rays intersect in front of the light (`rayIntersect` on (origin,
direction) pairs)": solve `as + t·ad = bs + u·bd` exactly over ℚ and report the
intersection point when the rays are non-parallel and both parameters are
positive (intersection in front of both origins). -/
def rayIntersect (as ad bs bd : Vec2) : Option Vec2 :=
  let det := qsub (qmul ad.x bd.y) (qmul ad.y bd.x)
  if det = 0 then none
  else
    let t := qdiv (qsub (qmul (qsub bs.x as.x) bd.y) (qmul (qsub bs.y as.y) bd.x)) det
    let u := qdiv (qsub (qmul (qsub bs.x as.x) ad.y) (qmul (qsub bs.y as.y) ad.x)) det
    if 0 < t ∧ 0 < u then some (as + t • ad) else none

/-- One triangle drawn by `BaseLight::unmaskWithPenumbras`: the shader uniform
pair and the three vertices, each `(position, texCoords)`. -/
structure PenTri where
  lightBrightness : ℚ
  darkBrightness : ℚ
  v0 : Vec2 × Vec2
  v1 : Vec2 × Vec2
  v2 : Vec2 × Vec2
deriving DecidableEq, Repr

/-- `BaseLight::unmaskWithPenumbras` (`Light.cpp:51-75`): per wedge one triangle
from the source point and the source extended along the normalized light-edge
and dark-edge directions by `shadowExtension`, with texture coordinates `(0,1)`
on the source vertex, `(1,0)` on the light apex and `(0,0)` on the dark apex. -/
def unmaskWithPenumbras (nv : Vec2 → Vec2) (penumbras : List Penumbra)
    (shadowExtension : ℚ) : List PenTri :=
  penumbras.map fun p =>
    { lightBrightness := p.lightBrightness,
      darkBrightness := p.darkBrightness,
      v0 := (p.source, ⟨0, 1⟩),
      v1 := (p.source + shadowExtension • nv p.lightEdge, ⟨1, 0⟩),
      v2 := (p.source + shadowExtension • nv p.darkEdge, ⟨0, 0⟩) }

/-- `LightCollider` as `PointLight::render` sees it: point list, local transform
(`mShape` state), the `lightOverShape` flag, `active`, and the current fill
color. -/
structure ColliderM where
  points : List Vec2
  transform : Transf
  lightOverShape : Bool
  active : Bool
  color : Color
deriving DecidableEq, Repr

/-- Blend modes used by `PointLight::render`. -/
inductive Blend
  | alpha
  | add
  | multiply
deriving DecidableEq, Repr

/-- The two raster targets `PointLight::render` writes shapes into. -/
inductive RTarget
  | lightTex
  | antumbraTex
deriving DecidableEq, Repr

/-- Abstract draw operations recorded by the render pass, in issue order. -/
inductive DrawOp
  | clear (target : RTarget) (c : Color)
  | drawLightSprite
  | silhouette (colliderIdx : ℕ)
  | maskTriangle (p0 p1 p2 : Vec2)
  | maskQuad (target : RTarget) (p0 p1 p2 p3 : Vec2)
  | penumbraTri (target : RTarget) (blend : Blend) (tri : PenTri)
  | displayTarget (target : RTarget)
  | multiplyAntumbraOntoLight
  | overShape (colliderIdx : ℕ) (c : Color)
deriving DecidableEq, Repr

/-- The light data `PointLight::render` reads: the geometry inputs plus
`mShadowOverExtendMultiplier` and the bounding box extents that determine the
shadow extension distance. -/
structure PointLightR where
  castCenter : Vec2
  radius : ℚ
  shadowOverExtendMultiplier : ℚ
  bbWidth : ℚ
  bbHeight : ℚ
deriving DecidableEq, Repr

def PointLightR.toG (l : PointLightR) : PointLightG := ⟨l.castCenter, l.radius⟩

/-- The shadow extension distance of `Light.cpp:164`:
`mShadowOverExtendMultiplier * (bb.width + bb.height)`. -/
def shadowExtensionOf (l : PointLightR) : ℚ :=
  qmul l.shadowOverExtendMultiplier (qadd l.bbWidth l.bbHeight)

/-- The boundary data `PointLight::render` computes for one collider
(`Light.cpp:197-198`): `getPenumbrasPoint` on freshly cleared vectors. -/
def rpRes (nv : Vec2 → Vec2) (acosQ : ℚ → ℚ) (fuel : ℕ) (light : PointLightR)
    (transf : Transf) (c : ColliderM) (colliderTransf : Transf) : GPResult :=
  getPenumbrasPoint nv acosQ fuel light.toG c.points c.transform
    colliderTransf transf [] [] [] [] []

/-- `colliderFinalTransf` of `Light.cpp:189-190`: the entity transform composed
with the collider's local transform (the local transform applies first). -/
def rpFinalTransf (c : ColliderM) (colliderTransf : Transf) : Transf :=
  Transf.comp colliderTransf c.transform

/-- `as` of `Light.cpp:211`: first outer boundary point, fully transformed. -/
def rpAs (nv : Vec2 → Vec2) (acosQ : ℚ → ℚ) (fuel : ℕ) (light : PointLightR)
    (transf : Transf) (c : ColliderM) (ct : Transf) : Vec2 :=
  (rpFinalTransf c ct).transformPoint
    (c.points.getD ((rpRes nv acosQ fuel light transf c ct).outerIndices.getD 0 0) 0)

/-- `bs` of `Light.cpp:212`: second outer boundary point, fully transformed. -/
def rpBs (nv : Vec2 → Vec2) (acosQ : ℚ → ℚ) (fuel : ℕ) (light : PointLightR)
    (transf : Transf) (c : ColliderM) (ct : Transf) : Vec2 :=
  (rpFinalTransf c ct).transformPoint
    (c.points.getD ((rpRes nv acosQ fuel light transf c ct).outerIndices.getD 1 0) 0)

/-- `ad` of `Light.cpp:213`: first outer boundary vector. -/
def rpAd (nv : Vec2 → Vec2) (acosQ : ℚ → ℚ) (fuel : ℕ) (light : PointLightR)
    (transf : Transf) (c : ColliderM) (ct : Transf) : Vec2 :=
  (rpRes nv acosQ fuel light transf c ct).outerVectors.getD 0 0

/-- `bd` of `Light.cpp:214`: second outer boundary vector. -/
def rpBd (nv : Vec2 → Vec2) (acosQ : ℚ → ℚ) (fuel : ℕ) (light : PointLightR)
    (transf : Transf) (c : ColliderM) (ct : Transf) : Vec2 :=
  (rpRes nv acosQ fuel light transf c ct).outerVectors.getD 1 0

/-- `asi` of `Light.cpp:221`: first inner boundary point, fully transformed. -/
def rpAsi (nv : Vec2 → Vec2) (acosQ : ℚ → ℚ) (fuel : ℕ) (light : PointLightR)
    (transf : Transf) (c : ColliderM) (ct : Transf) : Vec2 :=
  (rpFinalTransf c ct).transformPoint
    (c.points.getD ((rpRes nv acosQ fuel light transf c ct).innerIndices.getD 0 0) 0)

/-- `bsi` of `Light.cpp:222`: second inner boundary point, fully transformed. -/
def rpBsi (nv : Vec2 → Vec2) (acosQ : ℚ → ℚ) (fuel : ℕ) (light : PointLightR)
    (transf : Transf) (c : ColliderM) (ct : Transf) : Vec2 :=
  (rpFinalTransf c ct).transformPoint
    (c.points.getD ((rpRes nv acosQ fuel light transf c ct).innerIndices.getD 1 0) 0)

/-- `adi` of `Light.cpp:223`: first inner boundary vector. -/
def rpAdi (nv : Vec2 → Vec2) (acosQ : ℚ → ℚ) (fuel : ℕ) (light : PointLightR)
    (transf : Transf) (c : ColliderM) (ct : Transf) : Vec2 :=
  (rpRes nv acosQ fuel light transf c ct).innerVectors.getD 0 0

/-- `bdi` of `Light.cpp:224`: second inner boundary vector. -/
def rpBdi (nv : Vec2 → Vec2) (acosQ : ℚ → ℚ) (fuel : ℕ) (light : PointLightR)
    (transf : Transf) (c : ColliderM) (ct : Transf) : Vec2 :=
  (rpRes nv acosQ fuel light transf c ct).innerVectors.getD 1 0

/-- The body of the first per-collider loop of `PointLight::render`
(`Light.cpp:185-279`): boundary computation, the count check with `continue`,
silhouette masking, and the antumbra/umbra branch on `rayIntersect`.  Returns
the draw operations issued for this collider and its updated state (the loop
calls `lc->setColor(sf::Color::Black)`). -/
def renderPass1 (nv : Vec2 → Vec2) (acosQ : ℚ → ℚ) (fuel : ℕ) (light : PointLightR)
    (transf : Transf) (shadowExtension : ℚ) (i : ℕ) (c : ColliderM)
    (colliderTransf : Transf) : List DrawOp × ColliderM :=
  if ¬ c.active then ([], c)
  else
    let res := rpRes nv acosQ fuel light transf c colliderTransf
    if res.innerIndices.length ≠ 2 ∨ res.outerIndices.length ≠ 2 then ([], c)
    else
      let c1 := { c with color := Color.black }
      let silOps := if ¬ c.lightOverShape then [DrawOp.silhouette i] else []
      let as := rpAs nv acosQ fuel light transf c colliderTransf
      let bs := rpBs nv acosQ fuel light transf c colliderTransf
      let ad := rpAd nv acosQ fuel light transf c colliderTransf
      let bd := rpBd nv acosQ fuel light transf c colliderTransf
      match rayIntersect as ad bs bd with
      | some _ =>
        let asi := rpAsi nv acosQ fuel light transf c colliderTransf
        let bsi := rpBsi nv acosQ fuel light transf c colliderTransf
        let adi := rpAdi nv acosQ fuel light transf c colliderTransf
        let bdi := rpBdi nv acosQ fuel light transf c colliderTransf
        let maskOps :=
          match rayIntersect asi adi bsi bdi with
          | some intersectionInner => [DrawOp.maskTriangle asi bsi intersectionInner]
          | none => [DrawOp.maskQuad RTarget.antumbraTex asi bsi
              (bsi + shadowExtension • nv bdi) (asi + shadowExtension • nv adi)]
        (silOps ++ [DrawOp.clear RTarget.antumbraTex Color.white] ++ maskOps ++
          (unmaskWithPenumbras nv res.penumbras shadowExtension).map
            (DrawOp.penumbraTri RTarget.antumbraTex Blend.add) ++
          [DrawOp.displayTarget RTarget.antumbraTex, DrawOp.multiplyAntumbraOntoLight], c1)
      | none =>
        (silOps ++ [DrawOp.maskQuad RTarget.lightTex as bs
            (bs + shadowExtension • nv bd) (as + shadowExtension • nv ad)] ++
          (unmaskWithPenumbras nv res.penumbras shadowExtension).map
            (DrawOp.penumbraTri RTarget.lightTex Blend.multiply), c1)

/-- The body of the second per-collider loop of `PointLight::render`
(`Light.cpp:281-298`): every collider is redrawn with the light-over-shape
shader, white if `lightOverShape` and black otherwise — and recolored
accordingly. -/
def renderPass2 (i : ℕ) (c : ColliderM) : List DrawOp × ColliderM :=
  let col := if c.lightOverShape then Color.white else Color.black
  ([DrawOp.overShape i col], { c with color := col })

/-- `PointLight::render` (`Light.cpp:151-301`): the ordered draw-operation trace
and the collider states after the call. -/
def render (nv : Vec2 → Vec2) (acosQ : ℚ → ℚ) (fuel : ℕ) (light : PointLightR)
    (colliders : List (ColliderM × Transf)) (transf : Transf) :
    List DrawOp × List ColliderM :=
  let shadowExtension := shadowExtensionOf light
  let pass1 := colliders.enum.map fun p =>
    renderPass1 nv acosQ fuel light transf shadowExtension p.1 p.2.1 p.2.2
  let cols1 := pass1.map Prod.snd
  let pass2 := cols1.enum.map fun p => renderPass2 p.1 p.2
  ([DrawOp.clear RTarget.lightTex Color.black, DrawOp.drawLightSprite] ++
     (pass1.map Prod.fst).flatten ++ (pass2.map Prod.fst).flatten ++
     [DrawOp.displayTarget RTarget.lightTex],
   pass2.map Prod.snd)

/-- `LightFlickering::operator()` (`Light.cpp:670-688`).  The state is the
oscillation direction together with the affected light's sprite scale; the
wall-clock reading `mTimer.getElapsedTime().asMilliseconds()` is an injected
input of each tick (spec §6: timers are injected capabilities). -/
def lightFlickeringStep (period strength : ℚ) (delta elapsedMs : ℚ)
    (st : Bool × ℚ × ℚ) : Bool × ℚ × ℚ :=
  let scale := qdiv (qmul strength delta) period
  let sx := if st.1 then qadd st.2.1 scale else qsub st.2.1 scale
  let sy := if st.1 then qadd st.2.2 scale else qsub st.2.2 scale
  let dir := if period < elapsedMs then ! st.1 else st.1
  (dir, sx, sy)

/-- Iterated `LightFlickering` ticks over a list of `(delta, elapsedMs)`. -/
def lightFlickeringRun (period strength : ℚ) (ticks : List (ℚ × ℚ))
    (st : Bool × ℚ × ℚ) : Bool × ℚ × ℚ :=
  ticks.foldl (fun s t => lightFlickeringStep period strength t.1 t.2 s) st

/-- Mutable state of `RandomizedFlickering`: direction, current (randomized)
period and the `mSizeMemorizer` accumulator. -/
structure RFState where
  direction : Bool
  period : ℚ
  sizeMemorizer : ℚ
deriving DecidableEq, Repr

/-- `RandomizedFlickering::operator()` (`Light.cpp:697-724`).  `rand` is the
injected uniform random draw from `[0.5, 1]` used to re-randomize the period
(spec §6), `elapsedMs` the injected wall-clock reading.  The pair component is
the light's sprite scale. -/
def randomizedFlickeringStep (basePeriod strength : ℚ) (delta elapsedMs rand : ℚ)
    (st : RFState × ℚ × ℚ) : RFState × ℚ × ℚ :=
  let scale := qdiv (qmul strength delta) st.1.period
  if st.1.direction then
    let sx := qadd st.2.1 scale
    let sy := qadd st.2.2 scale
    let mem := qadd st.1.sizeMemorizer scale
    if 0 ≤ mem ∨ st.1.period < elapsedMs then
      (⟨false, qmul rand basePeriod, mem⟩, sx, sy)
    else
      (⟨true, st.1.period, mem⟩, sx, sy)
  else
    let sx := qsub st.2.1 scale
    let sy := qsub st.2.2 scale
    let mem := qsub st.1.sizeMemorizer scale
    if mem ≤ qneg (qmul strength st.1.period) ∨ st.1.period < elapsedMs then
      (⟨true, qmul rand basePeriod, mem⟩, sx, sy)
    else
      (⟨false, st.1.period, mem⟩, sx, sy)

/-- Iterated `RandomizedFlickering` ticks over a list of
`(delta, elapsedMs, rand)`. -/
def randomizedFlickeringRun (basePeriod strength : ℚ) (ticks : List (ℚ × ℚ × ℚ))
    (st : RFState × ℚ × ℚ) : RFState × ℚ × ℚ :=
  ticks.foldl (fun s t => randomizedFlickeringStep basePeriod strength t.1 t.2.1 t.2.2 s) st

/-- Wrap of `sf::Uint8` arithmetic: the color channels of the ambient color are
8-bit and `++`/`--` wrap modulo 256. -/
def wrap256 (z : ℤ) : ℤ := z % 256

/-- One channel of `LightSystem::interpolateAmbientLight` (`Light.cpp:873-909`):
accumulate `(target - current)/strength` into the carry, then step the channel
by ±1 (wrapping as `sf::Uint8`) and move the carry by ∓1 when the carry passed
`1` in magnitude. -/
def chanStep (strength : ℚ) (target : ℤ) (s : ℤ × ℚ) : ℤ × ℚ :=
  let c1 := qadd s.2 (qdiv ((target - s.1 : ℤ) : ℚ) strength)
  if 1 < c1 then (wrap256 (s.1 + 1), qsub c1 1)
  else if c1 < -1 then (wrap256 (s.1 - 1), qadd c1 1)
  else (s.1, c1)

/-- Iterated `chanStep`. -/
def iterChan (strength : ℚ) (target : ℤ) : ℕ → ℤ × ℚ → ℤ × ℚ
  | 0, s => s
  | n + 1, s => iterChan strength target n (chanStep strength target s)

/-- The persistent ambient state: `mAmbientColor` channels and the `mColorShift`
carry accumulator. -/
structure AmbientState where
  r : ℤ
  g : ℤ
  b : ℤ
  shiftX : ℚ
  shiftY : ℚ
  shiftZ : ℚ
deriving DecidableEq, Repr

/-- `LightSystem::interpolateAmbientLight` (`Light.cpp:873-909`): the three
channels are updated independently by `chanStep`. -/
def interpolateAmbientLight (target : Color) (strength : ℚ) (st : AmbientState) :
    AmbientState :=
  let pr := chanStep strength target.r (st.r, st.shiftX)
  let pg := chanStep strength target.g (st.g, st.shiftY)
  let pb := chanStep strength target.b (st.b, st.shiftZ)
  ⟨pr.1, pg.1, pb.1, pr.2, pg.2, pb.2⟩

/-- Iterated `interpolateAmbientLight` with a fixed target and strength. -/
def iterAmbient (target : Color) (strength : ℚ) : ℕ → AmbientState → AmbientState
  | 0, st => st
  | n + 1, st => iterAmbient target strength n (interpolateAmbientLight target strength st)

/-- Cross product of `oa` and `ob`, for the convexity check. -/
def cross2 (o a b : Vec2) : ℚ :=
  qsub (qmul (qsub a.x o.x) (qsub b.y o.y)) (qmul (qsub a.y o.y) (qsub b.x o.x))

/-- Decidable strict convexity (counter-clockwise winding) of a closed polygon:
every cyclically consecutive vertex triple turns strictly left. -/
def strictlyConvexCCW (pts : List Vec2) : Bool :=
  (List.range pts.length).all fun i =>
    decide (0 < cross2 (pts.getD i 0) (pts.getD ((i + 1) % pts.length) 0)
      (pts.getD ((i + 2) % pts.length) 0))

/-- The in-range filter of `LightSystem::renderLight` (`Light.cpp:813-834`):
axis-aligned rectangles as `(left, top, width, height)`. -/
structure FloatRect where
  left : ℚ
  top : ℚ
  width : ℚ
  height : ℚ
deriving DecidableEq, Repr

/-- `sf::FloatRect::intersects` (external SFML utility): strict overlap of the
two axis-aligned rectangles. -/
def FloatRect.intersects (r1 r2 : FloatRect) : Bool :=
  decide (max r1.left r2.left < min (qadd r1.left r1.width) (qadd r2.left r2.width)) &&
  decide (max r1.top r2.top < min (qadd r1.top r1.height) (qadd r2.top r2.height))

/-- The collider-collection loop of `LightSystem::renderLight`
(`Light.cpp:813-821`): a collider/transform pair is handed to
`PointLight::render` iff its transformed bounds intersect the light's
transformed bounds.  Bounds are supplied per entry (the bounding-box and
`transformRect` computations live in external SFML code). -/
def renderLightFilter (lightBounds : FloatRect)
    (entries : List ((ColliderM × Transf) × FloatRect)) : List (ColliderM × Transf) :=
  (entries.filter fun e => FloatRect.intersects e.2 lightBounds).map Prod.fst

/-- A strictly decreasing stand-in for `std::acos` used to instantiate the
external angle function in concrete evaluations: since `acos` is strictly
decreasing on `[-1, 1]`, every comparison `acos d₁ < acos d₂` of the source
agrees with `acosChord d₁ < acosChord d₂`; only the concrete value of the
brightness ratio depends on the choice. -/
def acosChord : ℚ → ℚ := fun d => qsub 1 d

theorem walkStep_length_outerIndices (nv : Vec2 → Vec2) (acosQ : ℚ → ℚ) (S : Vec2)
    (radius : ℚ) (tpts : List Vec2) (n : ℕ) (winding : Bool) (st : WalkState) :
    (walkStep nv acosQ S radius tpts n winding st).1.outerIndices.length
      = st.outerIndices.length := by
  simp only [walkStep]
  repeat' split
  all_goals simp [List.length_set]

theorem walkStep_length_outerVectors (nv : Vec2 → Vec2) (acosQ : ℚ → ℚ) (S : Vec2)
    (radius : ℚ) (tpts : List Vec2) (n : ℕ) (winding : Bool) (st : WalkState) :
    (walkStep nv acosQ S radius tpts n winding st).1.outerVectors.length
      = st.outerVectors.length := by
  simp only [walkStep]
  repeat' split
  all_goals simp [List.length_set]

theorem walkRun_length_outerIndices (nv : Vec2 → Vec2) (acosQ : ℚ → ℚ) (S : Vec2)
    (radius : ℚ) (tpts : List Vec2) (n : ℕ) (winding : Bool) :
    ∀ (fuel : ℕ) (st : WalkState),
      (walkRun nv acosQ S radius tpts n winding fuel st).outerIndices.length
        = st.outerIndices.length := by
  intro fuel
  induction fuel with
  | zero => intro st; rfl
  | succ f ih =>
    intro st
    simp only [walkRun]
    split
    · rw [ih]
      exact walkStep_length_outerIndices nv acosQ S radius tpts n winding st
    · exact walkStep_length_outerIndices nv acosQ S radius tpts n winding st

theorem innerChain_length_outerIndices (nv : Vec2 → Vec2) (acosQ : ℚ → ℚ) (fuel : ℕ)
    (S : Vec2) (radius : ℚ) (tpts : List Vec2) (n ibiLen : ℕ) (acc : ChainAcc)
    (pair : ℕ × Bool) :
    (innerChain nv acosQ fuel S radius tpts n ibiLen acc pair).outerIndices.length
      = acc.outerIndices.length := by
  simp only [innerChain]
  rw [walkRun_length_outerIndices]

theorem foldl_innerChain_length_outerIndices (nv : Vec2 → Vec2) (acosQ : ℚ → ℚ)
    (fuel : ℕ) (S : Vec2) (radius : ℚ) (tpts : List Vec2) (n ibiLen : ℕ) :
    ∀ (pairs : List (ℕ × Bool)) (acc : ChainAcc),
      (pairs.foldl (innerChain nv acosQ fuel S radius tpts n ibiLen) acc).outerIndices.length
        = acc.outerIndices.length := by
  intro pairs
  induction pairs with
  | nil => intro acc; rfl
  | cons p rest ih =>
    intro acc
    rw [List.foldl_cons, ih, innerChain_length_outerIndices]

/-- C3 (amended): for every collider polygon and every light configuration, the
inner and outer boundary index lists produced by `PointLight::getPenumbrasPoint`
each have an even number of entries — never 1 or any odd count — for any
normalization and angle function and any walk fuel.  (The claim's further
assertion that a convex polygon always yields exactly 0 or 2 entries per
criterion is refuted by `convex_polygon_four_outer_boundaries`.) -/
theorem getPenumbrasPoint_boundary_counts_even (nv : Vec2 → Vec2) (acosQ : ℚ → ℚ)
    (fuel : ℕ) (light : PointLightG) (pts : List Vec2) (clt ct lt : Transf) :
    Even ((getPenumbrasPoint nv acosQ fuel light pts clt ct lt
        [] [] [] [] []).innerIndices.length) ∧
    Even ((getPenumbrasPoint nv acosQ fuel light pts clt ct lt
        [] [] [] [] []).outerIndices.length) := by
  by_cases h : pts.length = 0
  · simp [getPenumbrasPoint, h]
  · constructor
    · simp only [getPenumbrasPoint, if_neg h]
      simp only [List.nil_append, List.length_map]
      exact boundaryScan_length_even _
    · simp only [getPenumbrasPoint, if_neg h]
      rw [foldl_innerChain_length_outerIndices]
      simp only [List.nil_append, List.length_map]
      exact boundaryScan_length_even _

/-- C3 counterexample: a strictly convex polygon (all vertices at rational
distance from the light center, so `exactNormalize` coincides with the C++
normalization throughout the facing classification) for which the outer
boundary index list has 4 entries — not 0 or 2 as the claim states for convex
polygons.  The inner list is empty, so the penumbra walk never runs and the
result does not depend on the angle function or fuel. -/
theorem convex_polygon_four_outer_boundaries :
    strictlyConvexCCW [⟨-35, -12⟩, ⟨mkRat 13 5, mkRat (-84) 5⟩, ⟨16, -12⟩, ⟨36, 105⟩]
      = true ∧
    (getPenumbrasPoint exactNormalize acosChord 30 ⟨⟨0, 0⟩, 20⟩
        [⟨-35, -12⟩, ⟨mkRat 13 5, mkRat (-84) 5⟩, ⟨16, -12⟩, ⟨36, 105⟩]
        Transf.ident Transf.ident Transf.ident [] [] [] [] []).outerIndices
      = [1, 2, 3, 0] ∧
    (getPenumbrasPoint exactNormalize acosChord 30 ⟨⟨0, 0⟩, 20⟩
        [⟨-35, -12⟩, ⟨mkRat 13 5, mkRat (-84) 5⟩, ⟨16, -12⟩, ⟨36, 105⟩]
        Transf.ident Transf.ident Transf.ident [] [] [] [] []).innerIndices
      = [] := by
  refine ⟨by decide, by decide, by decide⟩

/-- C10: for a collider with zero vertices, `getPenumbrasPoint` returns
immediately (`Light.cpp:362`) and all five output vectors come back exactly as
passed in. -/
theorem getPenumbrasPoint_empty_collider (nv : Vec2 → Vec2) (acosQ : ℚ → ℚ)
    (fuel : ℕ) (light : PointLightG) (pts : List Vec2) (clt ct lt : Transf)
    (pen0 : List Penumbra) (ibi0 : List ℕ) (ibv0 : List Vec2) (obi0 : List ℕ)
    (obv0 : List Vec2) (h : pts.length = 0) :
    getPenumbrasPoint nv acosQ fuel light pts clt ct lt pen0 ibi0 ibv0 obi0 obv0
      = ⟨pen0, ibi0, ibv0, obi0, obv0⟩ := by
  simp [getPenumbrasPoint, h]

/-- Witness for C10: a concrete empty collider with nonempty initial output
vectors comes back unchanged. -/
theorem getPenumbrasPoint_empty_collider_witness :
    ([] : List Vec2).length = 0 ∧
    getPenumbrasPoint exactNormalize acosChord 5 ⟨⟨0, 0⟩, 1⟩ [] Transf.ident
        Transf.ident Transf.ident
        [⟨⟨1, 1⟩, ⟨1, 0⟩, ⟨0, 1⟩, 1, 0, 0⟩] [3] [⟨2, 2⟩] [4] [⟨5, 5⟩]
      = ⟨[⟨⟨1, 1⟩, ⟨1, 0⟩, ⟨0, 1⟩, 1, 0, 0⟩], [3], [⟨2, 2⟩], [4], [⟨5, 5⟩]⟩ :=
  ⟨rfl, getPenumbrasPoint_empty_collider exactNormalize acosChord 5 ⟨⟨0, 0⟩, 1⟩ []
    Transf.ident Transf.ident Transf.ident _ _ _ _ _ rfl⟩

/-- C9 (amended): the geometry engine itself performs no range check; instead
`LightSystem::renderLight` culls colliders before invoking it.  A collider
reaches the render call iff its transformed bounds intersect the light's
transformed bounds: every collider produced by the filter comes from an entry
whose bounds intersect, and every in-range entry is kept. -/
theorem renderLightFilter_excludes_out_of_range (lightBounds : FloatRect)
    (entries : List ((ColliderM × Transf) × FloatRect)) :
    (∀ p ∈ renderLightFilter lightBounds entries,
        ∃ bounds, (p, bounds) ∈ entries ∧ FloatRect.intersects bounds lightBounds = true) ∧
    (∀ e ∈ entries, FloatRect.intersects e.2 lightBounds = true →
        e.1 ∈ renderLightFilter lightBounds entries) := by
  constructor
  · intro p hp
    simp only [renderLightFilter, List.mem_map, List.mem_filter] at hp
    obtain ⟨e, ⟨he, hint⟩, hfst⟩ := hp
    refine ⟨e.2, ?_, hint⟩
    rw [← hfst]
    simpa using he
  · intro e he hint
    simp only [renderLightFilter, List.mem_map, List.mem_filter]
    exact ⟨e, ⟨he, hint⟩, rfl⟩

/-- C9 counterexample: a strictly convex triangle whose vertices all lie at
distance ≥ 80 from the light's cast center (squared distance ≥ 6400), far
outside any plausible influence region of a light of radius 5, for which
`getPenumbrasPoint` returns two inner and two outer boundary indices — not the
zero entries the claim asserts.  All vertex distances are rational (100 each),
so `exactNormalize` agrees with the C++ normalization in the facing
classification, whose results determine the index counts. -/
theorem getPenumbrasPoint_distant_polygon_nonempty :
    strictlyConvexCCW [⟨100, 0⟩, ⟨96, 28⟩, ⟨80, 60⟩] = true ∧
    ([(⟨100, 0⟩ : Vec2), ⟨96, 28⟩, ⟨80, 60⟩].all fun p =>
      decide ((6400 : ℚ) ≤ dotProduct p p)) = true ∧
    (getPenumbrasPoint exactNormalize acosChord 30 ⟨⟨0, 0⟩, 5⟩
        [⟨100, 0⟩, ⟨96, 28⟩, ⟨80, 60⟩] Transf.ident Transf.ident Transf.ident
        [] [] [] [] []).innerIndices.length = 2 ∧
    (getPenumbrasPoint exactNormalize acosChord 30 ⟨⟨0, 0⟩, 5⟩
        [⟨100, 0⟩, ⟨96, 28⟩, ⟨80, 60⟩] Transf.ident Transf.ident Transf.ident
        [] [] [] [] []).outerIndices.length = 2 := by
  refine ⟨by decide, by decide, by decide, by decide⟩

/-- C5 (amended): for every penumbra wedge in the list `unmaskWithPenumbras`
draws one triangle whose vertices are the wedge source and the source extended
by the shadow-extension distance along the normalized light-edge and dark-edge
directions — but with texture coordinates `(0,1)` on the source vertex, `(1,0)`
on the light apex and `(0,0)` on the dark apex (`Light.cpp:67-72`), not the
mapping stated in the claim. -/
theorem unmaskWithPenumbras_triangles (nv : Vec2 → Vec2) (pens : List Penumbra)
    (ext : ℚ) (i : ℕ) (h : i < pens.length) :
    (unmaskWithPenumbras nv pens ext).length = pens.length ∧
    (unmaskWithPenumbras nv pens ext).getD i ⟨0, 0, (0, 0), (0, 0), (0, 0)⟩ =
      { lightBrightness := (pens.getD i ⟨0, 0, 0, 0, 0, 0⟩).lightBrightness,
        darkBrightness := (pens.getD i ⟨0, 0, 0, 0, 0, 0⟩).darkBrightness,
        v0 := ((pens.getD i ⟨0, 0, 0, 0, 0, 0⟩).source, ⟨0, 1⟩),
        v1 := ((pens.getD i ⟨0, 0, 0, 0, 0, 0⟩).source
                 + ext • nv (pens.getD i ⟨0, 0, 0, 0, 0, 0⟩).lightEdge, ⟨1, 0⟩),
        v2 := ((pens.getD i ⟨0, 0, 0, 0, 0, 0⟩).source
                 + ext • nv (pens.getD i ⟨0, 0, 0, 0, 0, 0⟩).darkEdge, ⟨0, 0⟩) } := by
  constructor
  · simp [unmaskWithPenumbras]
  · simp only [unmaskWithPenumbras, List.getD_eq_getElem?_getD, List.getElem?_map]
    have hsome : pens[i]? = some (pens.getD i ⟨0, 0, 0, 0, 0, 0⟩) := by
      rw [List.getD_eq_getElem?_getD, List.getElem?_eq_getElem h]
      rfl
    rw [hsome]
    rfl

/-- Witness for C5's theorem at a concrete wedge list. -/
theorem unmaskWithPenumbras_triangles_witness :
    0 < ([⟨⟨0, 0⟩, ⟨1, 0⟩, ⟨0, 1⟩, 1, 0, 0⟩] : List Penumbra).length ∧
    ((unmaskWithPenumbras exactNormalize [⟨⟨0, 0⟩, ⟨1, 0⟩, ⟨0, 1⟩, 1, 0, 0⟩] 1).length
        = 1 ∧
     (unmaskWithPenumbras exactNormalize [⟨⟨0, 0⟩, ⟨1, 0⟩, ⟨0, 1⟩, 1, 0, 0⟩] 1).getD 0
        ⟨0, 0, (0, 0), (0, 0), (0, 0)⟩ =
      { lightBrightness :=
          (([⟨⟨0, 0⟩, ⟨1, 0⟩, ⟨0, 1⟩, 1, 0, 0⟩] : List Penumbra).getD 0
            ⟨0, 0, 0, 0, 0, 0⟩).lightBrightness,
        darkBrightness :=
          (([⟨⟨0, 0⟩, ⟨1, 0⟩, ⟨0, 1⟩, 1, 0, 0⟩] : List Penumbra).getD 0
            ⟨0, 0, 0, 0, 0, 0⟩).darkBrightness,
        v0 := ((([⟨⟨0, 0⟩, ⟨1, 0⟩, ⟨0, 1⟩, 1, 0, 0⟩] : List Penumbra).getD 0
            ⟨0, 0, 0, 0, 0, 0⟩).source, ⟨0, 1⟩),
        v1 := ((([⟨⟨0, 0⟩, ⟨1, 0⟩, ⟨0, 1⟩, 1, 0, 0⟩] : List Penumbra).getD 0
            ⟨0, 0, 0, 0, 0, 0⟩).source
              + (1 : ℚ) • exactNormalize (([⟨⟨0, 0⟩, ⟨1, 0⟩, ⟨0, 1⟩, 1, 0, 0⟩] :
                  List Penumbra).getD 0 ⟨0, 0, 0, 0, 0, 0⟩).lightEdge, ⟨1, 0⟩),
        v2 := ((([⟨⟨0, 0⟩, ⟨1, 0⟩, ⟨0, 1⟩, 1, 0, 0⟩] : List Penumbra).getD 0
            ⟨0, 0, 0, 0, 0, 0⟩).source
              + (1 : ℚ) • exactNormalize (([⟨⟨0, 0⟩, ⟨1, 0⟩, ⟨0, 1⟩, 1, 0, 0⟩] :
                  List Penumbra).getD 0 ⟨0, 0, 0, 0, 0, 0⟩).darkEdge, ⟨0, 0⟩) }) :=
  ⟨by decide, unmaskWithPenumbras_triangles exactNormalize
    [⟨⟨0, 0⟩, ⟨1, 0⟩, ⟨0, 1⟩, 1, 0, 0⟩] 1 0 (by decide)⟩

/-- C5 counterexample: for a concrete wedge (source at the origin, dark edge
`(0,1)`, extension 1, exact normalization) the triangle's vertex carrying
texture coordinates `(0,1)` is the source point, not the dark apex, and the
vertex carrying `(0,0)` is the dark apex, not the source — the claim's mapping
has the two swapped. -/
theorem unmask_texcoord_mapping_swapped :
    ((unmaskWithPenumbras exactNormalize [⟨⟨0, 0⟩, ⟨1, 0⟩, ⟨0, 1⟩, 1, 0, 0⟩] 1).getD 0
        ⟨0, 0, (0, 0), (0, 0), (0, 0)⟩).v0.2 = ⟨0, 1⟩ ∧
    ((unmaskWithPenumbras exactNormalize [⟨⟨0, 0⟩, ⟨1, 0⟩, ⟨0, 1⟩, 1, 0, 0⟩] 1).getD 0
        ⟨0, 0, (0, 0), (0, 0), (0, 0)⟩).v0.1 = ⟨0, 0⟩ ∧
    ((unmaskWithPenumbras exactNormalize [⟨⟨0, 0⟩, ⟨1, 0⟩, ⟨0, 1⟩, 1, 0, 0⟩] 1).getD 0
        ⟨0, 0, (0, 0), (0, 0), (0, 0)⟩).v2.2 = ⟨0, 0⟩ ∧
    ((unmaskWithPenumbras exactNormalize [⟨⟨0, 0⟩, ⟨1, 0⟩, ⟨0, 1⟩, 1, 0, 0⟩] 1).getD 0
        ⟨0, 0, (0, 0), (0, 0), (0, 0)⟩).v2.1 = ⟨0, 1⟩ ∧
    ((0, 0) : Vec2 × Vec2).1 ≠ (⟨0, 1⟩ : Vec2) := by
  refine ⟨by decide, by decide, by decide, by decide, by decide⟩

/-- C1 (amended): one step of the penumbra chain walk.  If the angle between
the current light-edge vector and the edge-to-neighbor vector is smaller than
the angle between the light-edge and dark-edge vectors, the emitted wedge's
dark-side brightness is the ratio of the two angles, the walk continues onto
the neighboring edge, and when a previous wedge exists the new wedge's
brightness pair is swapped with the previous wedge's (the previous wedge
receives the ratio and the current running brightness, the new wedge inherits
the previous wedge's pair).  If the angle is not smaller, the walk stops — but,
contrary to the claim, the terminate branch performs the same swap: only when
no previous wedge exists does the terminating wedge itself carry dark-side
brightness 0; otherwise the 0 is written into the previous wedge and the
terminating wedge inherits the previous wedge's dark-side brightness
(`Light.cpp:559-565` / `627-633`). -/
theorem walkStep_brightness_bookkeeping
    (nv : Vec2 → Vec2) (acosQ : ℚ → ℚ) (S : Vec2) (radius : ℚ)
    (tpts : List Vec2) (n : ℕ) (winding : Bool) (st : WalkState)
    (hinv : st.hasPrevPenumbra = true → st.penumbras ≠ []) :
    (if wsIAngle nv acosQ tpts n winding st < wsPAngle nv acosQ st then
      (walkStep nv acosQ S radius tpts n winding st).2 = true ∧
      (walkStep nv acosQ S radius tpts n winding st).1.penumbraIndex
        = (if winding then wsPrevIndex n st else wsNextIndex n st) ∧
      (walkStep nv acosQ S radius tpts n winding st).1.prevBrightness
        = qdiv (wsIAngle nv acosQ tpts n winding st) (wsPAngle nv acosQ st) ∧
      (walkStep nv acosQ S radius tpts n winding st).1.hasPrevPenumbra = true ∧
      (if st.hasPrevPenumbra then
        (walkStep nv acosQ S radius tpts n winding st).1.penumbras
          = st.penumbras.dropLast
            ++ [{ st.penumbras.getLastD ⟨0, 0, 0, 0, 0, 0⟩ with
                  darkBrightness :=
                    qdiv (wsIAngle nv acosQ tpts n winding st) (wsPAngle nv acosQ st),
                  lightBrightness := st.prevBrightness }]
            ++ [⟨st.point, wsLightEdge st, wsStepVec tpts n winding st,
                 (st.penumbras.getLastD ⟨0, 0, 0, 0, 0, 0⟩).lightBrightness,
                 (st.penumbras.getLastD ⟨0, 0, 0, 0, 0, 0⟩).darkBrightness, 0⟩]
      else
        (walkStep nv acosQ S radius tpts n winding st).1.penumbras
          = st.penumbras
            ++ [⟨st.point, wsLightEdge st, wsStepVec tpts n winding st,
                 st.prevBrightness,
                 qdiv (wsIAngle nv acosQ tpts n winding st) (wsPAngle nv acosQ st), 0⟩])
    else
      (walkStep nv acosQ S radius tpts n winding st).2 = false ∧
      (walkStep nv acosQ S radius tpts n winding st).1.hasPrevPenumbra = false ∧
      (if st.hasPrevPenumbra then
        (walkStep nv acosQ S radius tpts n winding st).1.penumbras
          = st.penumbras.dropLast
            ++ [{ st.penumbras.getLastD ⟨0, 0, 0, 0, 0, 0⟩ with
                  darkBrightness := 0,
                  lightBrightness := st.prevBrightness }]
            ++ [⟨st.point, wsLightEdge st, st.outerBoundaryVector,
                 (st.penumbras.getLastD ⟨0, 0, 0, 0, 0, 0⟩).lightBrightness,
                 (st.penumbras.getLastD ⟨0, 0, 0, 0, 0, 0⟩).darkBrightness, 0⟩]
      else
        (walkStep nv acosQ S radius tpts n winding st).1.penumbras
          = st.penumbras
            ++ [⟨st.point, wsLightEdge st, st.outerBoundaryVector,
                 st.prevBrightness, 0, 0⟩])) := by
  have hswap : ∀ (db lb : ℚ), st.hasPrevPenumbra = true →
      swapBrightnessWithLast st.penumbras db lb
        = (st.penumbras.dropLast
            ++ [{ st.penumbras.getLastD ⟨0, 0, 0, 0, 0, 0⟩ with
                  darkBrightness := db, lightBrightness := lb }],
           (st.penumbras.getLastD ⟨0, 0, 0, 0, 0, 0⟩).darkBrightness,
           (st.penumbras.getLastD ⟨0, 0, 0, 0, 0, 0⟩).lightBrightness) := by
    intro db lb hp
    have hne := hinv hp
    obtain ⟨L0, hL0⟩ := Option.isSome_iff_exists.mp (List.getLast?_isSome.mpr hne)
    have hgetD : st.penumbras.getLastD ⟨0, 0, 0, 0, 0, 0⟩ = L0 := by
      rw [List.getLastD_eq_getLast?, hL0]
      rfl
    simp [swapBrightnessWithLast, hL0, hgetD]
  by_cases hc : wsIAngle nv acosQ tpts n winding st < wsPAngle nv acosQ st
  · rw [if_pos hc]
    cases hp : st.hasPrevPenumbra with
    | false =>
      simp only [if_neg (by simp [hp] : ¬ st.hasPrevPenumbra = true)]
      refine ⟨?_, ?_, ?_, ?_, ?_⟩ <;>
        simp [walkStep, hp, hc]
    | true =>
      simp only [if_pos hp]
      refine ⟨?_, ?_, ?_, ?_, ?_⟩ <;>
        simp [walkStep, hp, hc, hswap _ _ hp]
  · rw [if_neg hc]
    cases hp : st.hasPrevPenumbra with
    | false =>
      simp only [if_neg (by simp [hp] : ¬ st.hasPrevPenumbra = true)]
      refine ⟨?_, ?_, ?_⟩ <;>
        simp [walkStep, hp, hc]
    | true =>
      simp only [if_pos hp]
      refine ⟨?_, ?_, ?_⟩ <;>
        simp [walkStep, hp, hc, hswap _ _ hp]


/-- Concrete walk state for the C1 witness: no previous wedge, inner boundary
vector `(1,0)`, dark edge `(0,1)`. -/
def walkWitnessState : WalkState :=
  { penumbraIndex := 0, point := ⟨0, 0⟩, outerBoundaryVector := ⟨0, 1⟩,
    hasPrevPenumbra := false, prevPenumbraLightEdgeVector := ⟨0, 0⟩,
    prevBrightness := 1, penumbras := [], innerVectors := [⟨1, 0⟩],
    outerIndices := [], outerVectors := [] }

/-- Witness for C1's theorem: at `walkWitnessState` the angle test fails
(both angles are equal), so the walk emits a terminating wedge with dark-side
brightness 0 (no previous wedge exists) and stops. -/
theorem walkStep_brightness_bookkeeping_witness :
    (walkStep exactNormalize acosChord ⟨0, 0⟩ 0 [⟨1, 0⟩, ⟨0, 1⟩] 2 false
        walkWitnessState).2 = false ∧
    (walkStep exactNormalize acosChord ⟨0, 0⟩ 0 [⟨1, 0⟩, ⟨0, 1⟩] 2 false
        walkWitnessState).1.hasPrevPenumbra = false ∧
    (walkStep exactNormalize acosChord ⟨0, 0⟩ 0 [⟨1, 0⟩, ⟨0, 1⟩] 2 false
        walkWitnessState).1.penumbras
      = walkWitnessState.penumbras
        ++ [⟨walkWitnessState.point, wsLightEdge walkWitnessState,
             walkWitnessState.outerBoundaryVector,
             walkWitnessState.prevBrightness, 0, 0⟩] := by
  have h := walkStep_brightness_bookkeeping exactNormalize acosChord ⟨0, 0⟩ 0
    [⟨1, 0⟩, ⟨0, 1⟩] 2 false walkWitnessState (by simp [walkWitnessState])
  rw [if_neg (by decide)] at h
  obtain ⟨h1, h2, h3⟩ := h
  rw [if_neg (by decide)] at h3
  exact ⟨h1, h2, h3⟩

/-- The collider polygon of the C1 counterexample: a strictly convex triangle,
listed counterclockwise, whose vertices lie at rational distances `8`, `200/3`
and `200/3` from the light center `(0,0)` and whose edges have rational lengths
`176/3`, `320/3` and `208/3`. -/
def c1Poly : List Vec2 :=
  [⟨mkRat 56 25, mkRat 192 25⟩, ⟨mkRat 56 3, 64⟩, ⟨mkRat (-200) 3, 0⟩]

/-- Every vector a `getPenumbrasPoint` run with identity transforms passes to
the external normalizer: the perpendiculars of the vertex directions (the
offset computations at `Light.cpp:387-390`, `456-460`, `473-477`, `607-614`),
the two offset rays of each vertex, and the polygon edges, their negations
(`pointToNextPoint` / `pointToPrevPoint`, `Light.cpp:499-507`) and their
perpendiculars (the edge normals at `Light.cpp:394`).  Every vector the chain
walk normalizes belongs to this list: its light edge is either an inner
boundary vector (an offset ray) or the previous step's edge vector, its dark
edge (`outerBoundaryVector`) is always an offset ray of the current vertex,
and its step vectors are edges or negated edges. -/
def normalizeCallPool (nv : Vec2 → Vec2) (S : Vec2) (radius : ℚ)
    (pts : List Vec2) : List Vec2 :=
  (pts.map fun p => perp (p - S))
    ++ (pts.map fun p => (offsetRays nv S radius p).1)
    ++ (pts.map fun p => (offsetRays nv S radius p).2)
    ++ ((List.range pts.length).map fun i =>
          pts.getD ((i + 1) % pts.length) 0 - pts.getD i 0)
    ++ ((List.range pts.length).map fun i =>
          pts.getD i 0 - pts.getD ((i + 1) % pts.length) 0)
    ++ ((List.range pts.length).map fun i =>
          perp (pts.getD ((i + 1) % pts.length) 0 - pts.getD i 0))

/-- C1 counterexample: for the strictly convex triangle `c1Poly` and a light of
radius 15 at the origin, the chain walk for the second inner-boundary vertex
(vertex 0) takes one continue step over the edge to vertex 1 and then
terminates; the terminating wedge — the last wedge pushed — carries dark-side
brightness `17/50 ≠ 0`, refuting the claim that the terminating wedge always
has dark-side brightness 0: the terminate branch swaps brightness with the
previous wedge, which receives the 0 instead (the middle wedge here, conjunct
four).  The run replicates the source's arithmetic exactly: the second conjunct
certifies that `exactNormalize` maps every vector in `normalizeCallPool` —
which contains every vector this run passes to the normalizer — to exact unit
length (the vertex distances 8, 200/3, 200/3, the edge lengths 176/3, 320/3,
208/3 and the offset-ray norms 17 and 205/3 are all rational), so
`exactNormalize` agrees with the C++ `normalizeVector` throughout, and since
`acosChord` is strictly decreasing like `acos`, every `iAngle < pAngle`
comparison decides exactly as in the source.  The walk at vertex 0 first
compares dot products `8/17` (step) against `-161/289` (dark edge) — continue —
and then `-4/5` against `40/41` — terminate.  In real arithmetic the
terminating wedge's dark-side brightness is
`acos(8/17) / acos(-161/289) = 1/2` (as `-161/289 = 2·(8/17)² - 1`), likewise
nonzero. -/
theorem walk_terminating_wedge_nonzero_dark :
    strictlyConvexCCW c1Poly = true ∧
    ((normalizeCallPool exactNormalize ⟨0, 0⟩ 15 c1Poly).all fun w =>
        decide (dotProduct (exactNormalize w) (exactNormalize w) = 1)) = true ∧
    (getPenumbrasPoint exactNormalize acosChord 30 ⟨⟨0, 0⟩, 15⟩ c1Poly
        Transf.ident Transf.ident Transf.ident [] [] [] [] []).penumbras.length = 3 ∧
    ((getPenumbrasPoint exactNormalize acosChord 30 ⟨⟨0, 0⟩, 15⟩ c1Poly
        Transf.ident Transf.ident Transf.ident [] [] [] [] []).penumbras.getD 1
        ⟨0, 0, 0, 0, 0, 0⟩).darkBrightness = 0 ∧
    ((getPenumbrasPoint exactNormalize acosChord 30 ⟨⟨0, 0⟩, 15⟩ c1Poly
        Transf.ident Transf.ident Transf.ident [] [] [] [] []).penumbras.getLastD
        ⟨0, 0, 0, 0, 0, 0⟩).darkBrightness = mkRat 17 50 ∧
    ¬ ((getPenumbrasPoint exactNormalize acosChord 30 ⟨⟨0, 0⟩, 15⟩ c1Poly
        Transf.ident Transf.ident Transf.ident [] [] [] [] []).penumbras.getLastD
        ⟨0, 0, 0, 0, 0, 0⟩).darkBrightness = 0 := by
  refine ⟨by decide, by decide, by decide, by decide, by decide, by decide⟩

/-- C7: the code violates the claim (and the promise in `Light.h:242-243` that
"the bounding rect of the light is promised to be never bigger then in the
original state").  `LightFlickering` with period 1 and strength 1, starting at
scale 1 in the shrinking phase: a tick with delta 0 whose wall-clock reading
exceeds the period flips the direction to growing, and a following tick with
delta 5 raises the scale to 6 > 1.  `RandomizedFlickering` with base period 1
and strength 1 similarly reaches scale 20 > 1: the shrink phase hits the
`-strength*period` bound, flips to growing, and one large-delta tick overshoots
far past the initial scale before the `mSizeMemorizer ≥ 0` check can stop it. -/
theorem flickering_exceeds_initial_scale :
    (lightFlickeringRun 1 1 [(0, 2), (5, 0)] (false, 1, 1)).2.1 = 6 ∧
    (1 : ℚ) < (lightFlickeringRun 1 1 [(0, 2), (5, 0)] (false, 1, 1)).2.1 ∧
    (randomizedFlickeringRun 1 1 [(mkRat 3 4, 0, mkRat 1 2), (10, 0, mkRat 1 2)]
        (⟨false, mkRat 3 4, 0⟩, 1, 1)).2.1 = 20 ∧
    (1 : ℚ) < (randomizedFlickeringRun 1 1 [(mkRat 3 4, 0, mkRat 1 2), (10, 0, mkRat 1 2)]
        (⟨false, mkRat 3 4, 0⟩, 1, 1)).2.1 := by
  refine ⟨by decide, by decide, by decide, by decide⟩

/-- The collider state after the first render loop: recolored black exactly
when it is active and passes the boundary-count check; otherwise untouched. -/
theorem renderPass1_snd_eq (nv : Vec2 → Vec2) (acosQ : ℚ → ℚ) (fuel : ℕ)
    (light : PointLightR) (transf : Transf) (ext : ℚ) (i : ℕ) (c : ColliderM)
    (ct : Transf) :
    (renderPass1 nv acosQ fuel light transf ext i c ct).2
      = if c.active = true
          ∧ (rpRes nv acosQ fuel light transf c ct).innerIndices.length = 2
          ∧ (rpRes nv acosQ fuel light transf c ct).outerIndices.length = 2
        then { c with color := Color.black } else c := by
  cases ha : c.active with
  | false =>
    rw [if_neg (by simp [ha])]
    simp [renderPass1, ha]
  | true =>
    by_cases h2 : (rpRes nv acosQ fuel light transf c ct).innerIndices.length = 2
        ∧ (rpRes nv acosQ fuel light transf c ct).outerIndices.length = 2
    · rw [if_pos ⟨rfl, h2⟩]
      simp only [renderPass1, ha]
      rw [if_neg (by simp)]
      rw [if_neg (not_or.mpr ⟨not_not_intro h2.1, not_not_intro h2.2⟩)]
      split <;> rfl
    · rw [if_neg (by intro hcon; exact h2 hcon.2)]
      have hne : (rpRes nv acosQ fuel light transf c ct).innerIndices.length ≠ 2
          ∨ (rpRes nv acosQ fuel light transf c ct).outerIndices.length ≠ 2 := by
        by_contra hcc
        push_neg at hcc
        exact h2 ⟨hcc.1, hcc.2⟩
      simp only [renderPass1, ha]
      rw [if_neg (by simp)]
      rw [if_pos hne]

/-- Helper: mapping an index-independent second component over an enumerated
list forgets the indices. -/
theorem map_snd_enum_map {α β γ : Type _} (g : ℕ → α → β × γ)
    (h : ∀ i a, (g i a).2 = (g 0 a).2) (l : List α) :
    ((l.enum.map fun p => g p.1 p.2).map Prod.snd) = l.map fun a => (g 0 a).2 := by
  rw [List.map_map]
  have : (Prod.snd ∘ fun p : ℕ × α => g p.1 p.2) = fun p : ℕ × α => (g 0 p.2).2 := by
    funext p
    exact h p.1 p.2
  rw [this]
  have h2 : (fun p : ℕ × α => (g 0 p.2).2)
      = (fun a : α => (g 0 a).2) ∘ (Prod.snd : ℕ × α → α) := rfl
  rw [h2, ← List.map_map, List.enum_map_snd]

/-- C6 (amended): `PointLight::render` does mutate the supplied colliders —
after the call every collider's fill color is white if `lightOverShape` and
black otherwise (`Light.cpp:207`, `290-295`), while its points, transform and
flags are unchanged (this is what the `map` form expresses).  The claim that
the render color is unchanged is refuted by `render_changes_collider_color`. -/
theorem render_recolors_colliders (nv : Vec2 → Vec2) (acosQ : ℚ → ℚ) (fuel : ℕ)
    (light : PointLightR) (colliders : List (ColliderM × Transf)) (transf : Transf) :
    (render nv acosQ fuel light colliders transf).2
      = colliders.map fun p =>
          { p.1 with color := if p.1.lightOverShape then Color.white else Color.black } := by
  simp only [render]
  rw [map_snd_enum_map (fun i c => renderPass2 i c) (by intro i a; rfl)]
  rw [show (fun p : ℕ × (ColliderM × Transf) =>
        renderPass1 nv acosQ fuel light transf (shadowExtensionOf light) p.1 p.2.1 p.2.2)
      = (fun p : ℕ × (ColliderM × Transf) =>
          (fun i (a : ColliderM × Transf) =>
            renderPass1 nv acosQ fuel light transf (shadowExtensionOf light) i a.1 a.2)
            p.1 p.2) from rfl]
  rw [map_snd_enum_map
    (fun i (a : ColliderM × Transf) =>
      renderPass1 nv acosQ fuel light transf (shadowExtensionOf light) i a.1 a.2)
    (by
      intro i a
      rw [renderPass1_snd_eq, renderPass1_snd_eq])]
  rw [List.map_map]
  apply List.map_congr_left
  intro p _
  simp only [Function.comp]
  rw [renderPass1_snd_eq]
  split <;> simp [renderPass2]


/-- C6 counterexample: a red, inactive, non-over-shape collider comes back
black from `PointLight::render` — the render call mutates collider state (the
second per-collider loop recolors every collider), contradicting the claim that
each collider's render color is unchanged. -/
theorem render_changes_collider_color :
    (render exactNormalize acosChord 5 ⟨⟨0, 0⟩, 1, 1, 1, 1⟩
        [(⟨[], Transf.ident, false, false, Color.red⟩, Transf.ident)] Transf.ident).2
      = [⟨[], Transf.ident, false, false, Color.black⟩] ∧
    (⟨[], Transf.ident, false, false, Color.black⟩ : ColliderM)
      ≠ ⟨[], Transf.ident, false, false, Color.red⟩ := by
  refine ⟨by decide, by decide⟩


/-- C4: for an active collider whose inner or outer boundary index count is not
exactly 2, the masking loop of `PointLight::render` issues no draw operation at
all for it (no silhouette, no shadow quad, no penumbra) and leaves the collider
untouched by that loop; the full render trace is still the in-order
concatenation of the remaining colliders' contributions followed by the
light-over-shape pass and the display — the degenerate collider is simply
skipped, no error. -/
theorem renderPass1_skips_degenerate (nv : Vec2 → Vec2) (acosQ : ℚ → ℚ) (fuel : ℕ)
    (light : PointLightR) (transf : Transf) (ext : ℚ) (i : ℕ) (c : ColliderM)
    (ct : Transf) (ha : c.active = true)
    (hbad : (rpRes nv acosQ fuel light transf c ct).innerIndices.length ≠ 2
      ∨ (rpRes nv acosQ fuel light transf c ct).outerIndices.length ≠ 2) :
    renderPass1 nv acosQ fuel light transf ext i c ct = ([], c) ∧
    ∀ (colliders : List (ColliderM × Transf)),
      (render nv acosQ fuel light colliders transf).1
        = [DrawOp.clear RTarget.lightTex Color.black, DrawOp.drawLightSprite]
          ++ ((colliders.enum.map fun p =>
              (renderPass1 nv acosQ fuel light transf (shadowExtensionOf light)
                p.1 p.2.1 p.2.2).1)).flatten
          ++ ((((colliders.enum.map fun p =>
              (renderPass1 nv acosQ fuel light transf (shadowExtensionOf light)
                p.1 p.2.1 p.2.2).2)).enum.map fun p => (renderPass2 p.1 p.2).1)).flatten
          ++ [DrawOp.displayTarget RTarget.lightTex] := by
  constructor
  · simp only [renderPass1, ha]
    rw [if_neg (by simp)]
    rw [if_pos hbad]
  · intro colliders
    simp only [render, List.map_map]
    rfl

/-- C2: for an active collider passing the boundary-count check, if the two
outer boundary rays intersect, the antumbra path is taken: the scratch antumbra
texture is cleared to white, a black triangle is masked when the two inner
boundary rays also intersect and a black quadrilateral otherwise, the penumbra
wedges are unmasked with additive blending, and the scratch result is
multiplied onto the light texture; if the outer rays do not intersect, a black
quadrilateral from the two outer boundary points extended by the
shadow-extension distance is drawn directly onto the light texture and the
penumbra wedges are unmasked with multiplicative blending
(`Light.cpp:211-277`). -/
theorem renderPass1_antumbra_vs_umbra (nv : Vec2 → Vec2) (acosQ : ℚ → ℚ) (fuel : ℕ)
    (light : PointLightR) (transf : Transf) (ext : ℚ) (i : ℕ) (c : ColliderM)
    (ct : Transf) (ha : c.active = true)
    (h2i : (rpRes nv acosQ fuel light transf c ct).innerIndices.length = 2)
    (h2o : (rpRes nv acosQ fuel light transf c ct).outerIndices.length = 2) :
    (∀ pOuter, rayIntersect (rpAs nv acosQ fuel light transf c ct)
        (rpAd nv acosQ fuel light transf c ct) (rpBs nv acosQ fuel light transf c ct)
        (rpBd nv acosQ fuel light transf c ct) = some pOuter →
      (renderPass1 nv acosQ fuel light transf ext i c ct).1
        = (if ¬ c.lightOverShape then [DrawOp.silhouette i] else [])
          ++ [DrawOp.clear RTarget.antumbraTex Color.white]
          ++ (match rayIntersect (rpAsi nv acosQ fuel light transf c ct)
                (rpAdi nv acosQ fuel light transf c ct)
                (rpBsi nv acosQ fuel light transf c ct)
                (rpBdi nv acosQ fuel light transf c ct) with
              | some intersectionInner =>
                  [DrawOp.maskTriangle (rpAsi nv acosQ fuel light transf c ct)
                    (rpBsi nv acosQ fuel light transf c ct) intersectionInner]
              | none =>
                  [DrawOp.maskQuad RTarget.antumbraTex
                    (rpAsi nv acosQ fuel light transf c ct)
                    (rpBsi nv acosQ fuel light transf c ct)
                    (rpBsi nv acosQ fuel light transf c ct
                      + ext • nv (rpBdi nv acosQ fuel light transf c ct))
                    (rpAsi nv acosQ fuel light transf c ct
                      + ext • nv (rpAdi nv acosQ fuel light transf c ct))])
          ++ (unmaskWithPenumbras nv
                (rpRes nv acosQ fuel light transf c ct).penumbras ext).map
              (DrawOp.penumbraTri RTarget.antumbraTex Blend.add)
          ++ [DrawOp.displayTarget RTarget.antumbraTex,
              DrawOp.multiplyAntumbraOntoLight]) ∧
    (rayIntersect (rpAs nv acosQ fuel light transf c ct)
        (rpAd nv acosQ fuel light transf c ct) (rpBs nv acosQ fuel light transf c ct)
        (rpBd nv acosQ fuel light transf c ct) = none →
      (renderPass1 nv acosQ fuel light transf ext i c ct).1
        = (if ¬ c.lightOverShape then [DrawOp.silhouette i] else [])
          ++ [DrawOp.maskQuad RTarget.lightTex (rpAs nv acosQ fuel light transf c ct)
              (rpBs nv acosQ fuel light transf c ct)
              (rpBs nv acosQ fuel light transf c ct
                + ext • nv (rpBd nv acosQ fuel light transf c ct))
              (rpAs nv acosQ fuel light transf c ct
                + ext • nv (rpAd nv acosQ fuel light transf c ct))]
          ++ (unmaskWithPenumbras nv
                (rpRes nv acosQ fuel light transf c ct).penumbras ext).map
              (DrawOp.penumbraTri RTarget.lightTex Blend.multiply)) := by
  constructor
  · intro pOuter hro
    simp only [renderPass1, ha]
    rw [if_neg (by simp)]
    rw [if_neg (not_or.mpr ⟨not_not_intro h2i, not_not_intro h2o⟩)]
    rw [hro]
  · intro hro
    simp only [renderPass1, ha]
    rw [if_neg (by simp)]
    rw [if_neg (not_or.mpr ⟨not_not_intro h2i, not_not_intro h2o⟩)]
    rw [hro]

/-- Active collider used by the C4 witness: the strictly convex 4-gon whose
outer boundary count is 4. -/
def c4Collider : ColliderM :=
  ⟨[⟨-35, -12⟩, ⟨mkRat 13 5, mkRat (-84) 5⟩, ⟨16, -12⟩, ⟨36, 105⟩],
   Transf.ident, false, true, Color.black⟩

/-- Witness for C4's theorem: the degenerate collider is skipped. -/
theorem renderPass1_skips_degenerate_witness :
    renderPass1 exactNormalize acosChord 30 ⟨⟨0, 0⟩, 20, 1, 1, 1⟩ Transf.ident 7 0
        c4Collider Transf.ident = ([], c4Collider) :=
  (renderPass1_skips_degenerate exactNormalize acosChord 30 ⟨⟨0, 0⟩, 20, 1, 1, 1⟩
    Transf.ident 7 0 c4Collider Transf.ident rfl (by decide)).1

/-- Active collider used by the C2 witness: the distant triangle (boundary
counts 2/2, outer rays diverging, so the umbra/penumbra path is taken). -/
def c2Collider : ColliderM :=
  ⟨[⟨100, 0⟩, ⟨96, 28⟩, ⟨80, 60⟩], Transf.ident, false, true, Color.black⟩

/-- Witness for C2's theorem, umbra path at a concrete configuration. -/
theorem renderPass1_antumbra_vs_umbra_witness :
    (renderPass1 exactNormalize acosChord 30 ⟨⟨0, 0⟩, 5, 1, 1, 1⟩ Transf.ident 7 0
        c2Collider Transf.ident).1
      = (if ¬ c2Collider.lightOverShape then [DrawOp.silhouette 0] else [])
        ++ [DrawOp.maskQuad RTarget.lightTex
            (rpAs exactNormalize acosChord 30 ⟨⟨0, 0⟩, 5, 1, 1, 1⟩ Transf.ident
              c2Collider Transf.ident)
            (rpBs exactNormalize acosChord 30 ⟨⟨0, 0⟩, 5, 1, 1, 1⟩ Transf.ident
              c2Collider Transf.ident)
            (rpBs exactNormalize acosChord 30 ⟨⟨0, 0⟩, 5, 1, 1, 1⟩ Transf.ident
                c2Collider Transf.ident
              + (7 : ℚ) • exactNormalize (rpBd exactNormalize acosChord 30
                  ⟨⟨0, 0⟩, 5, 1, 1, 1⟩ Transf.ident c2Collider Transf.ident))
            (rpAs exactNormalize acosChord 30 ⟨⟨0, 0⟩, 5, 1, 1, 1⟩ Transf.ident
                c2Collider Transf.ident
              + (7 : ℚ) • exactNormalize (rpAd exactNormalize acosChord 30
                  ⟨⟨0, 0⟩, 5, 1, 1, 1⟩ Transf.ident c2Collider Transf.ident))]
        ++ (unmaskWithPenumbras exactNormalize
              (rpRes exactNormalize acosChord 30 ⟨⟨0, 0⟩, 5, 1, 1, 1⟩ Transf.ident
                c2Collider Transf.ident).penumbras 7).map
            (DrawOp.penumbraTri RTarget.lightTex Blend.multiply) :=
  (renderPass1_antumbra_vs_umbra exactNormalize acosChord 30 ⟨⟨0, 0⟩, 5, 1, 1, 1⟩
    Transf.ident 7 0 c2Collider Transf.ident rfl (by decide) (by decide)).2 (by decide)


/-- `chanStep` with the `mkRat`-based operations rewritten to ordinary field
operations on ℚ. -/
theorem chanStep_eq (strength : ℚ) (target : ℤ) (cur : ℤ) (carry : ℚ) :
    chanStep strength target (cur, carry)
      = (if 1 < carry + ((target - cur : ℤ) : ℚ) / strength
         then (wrap256 (cur + 1), carry + ((target - cur : ℤ) : ℚ) / strength - 1)
         else if carry + ((target - cur : ℤ) : ℚ) / strength < -1
         then (wrap256 (cur - 1), carry + ((target - cur : ℤ) : ℚ) / strength + 1)
         else (cur, carry + ((target - cur : ℤ) : ℚ) / strength)) := by
  simp [chanStep, qadd_eq, qdiv_eq, qsub_eq]

/-- Iteration composes additively. -/
theorem iterChan_add (strength : ℚ) (target : ℤ) (a b : ℕ) (s : ℤ × ℚ) :
    iterChan strength target (a + b) s
      = iterChan strength target b (iterChan strength target a s) := by
  induction a generalizing s with
  | zero => rw [Nat.zero_add]; rfl
  | succ a ih =>
    have h1 : a + 1 + b = (a + b) + 1 := by omega
    rw [h1]
    show iterChan strength target (a + b) (chanStep strength target s) = _
    rw [ih]
    rfl

/-- While the carry (growing by a fixed positive increment) has not yet
exceeded 1, a channel below its target stays put and only accumulates. -/
theorem iterChan_stuck_up (strength : ℚ) (t : ℤ) (cur : ℤ) :
    ∀ (k : ℕ) (carry : ℚ), 0 ≤ carry →
      (∀ j : ℕ, j < k →
        ¬ (1 < carry + ((j : ℚ) + 1) * (((t - cur : ℤ) : ℚ) / strength))) →
      0 < ((t - cur : ℤ) : ℚ) / strength →
      iterChan strength t k (cur, carry)
        = (cur, carry + (k : ℚ) * (((t - cur : ℤ) : ℚ) / strength)) := by
  intro k
  induction k with
  | zero =>
    intro carry hc _ _
    simp [iterChan]
  | succ k ih =>
    intro carry hc hstuck hpos
    have h0 : ¬ (1 < carry + ((t - cur : ℤ) : ℚ) / strength) := by
      have := hstuck 0 (by omega)
      simpa using this
    have hge : ¬ (carry + ((t - cur : ℤ) : ℚ) / strength < -1) := by
      push_neg
      have : (0 : ℚ) ≤ carry + ((t - cur : ℤ) : ℚ) / strength :=
        add_nonneg hc (le_of_lt hpos)
      linarith
    show iterChan strength t k (chanStep strength t (cur, carry)) = _
    rw [chanStep_eq, if_neg h0, if_neg hge]
    rw [ih (carry + ((t - cur : ℤ) : ℚ) / strength)
      (add_nonneg hc (le_of_lt hpos))
      (by
        intro j hj
        have := hstuck (j + 1) (by omega)
        push_cast at this ⊢
        intro hcon
        apply this
        linarith [hcon])
      hpos]
    congr 1
    push_cast
    ring



/-- A channel at least 2 below its target (carry nonnegative) is incremented by
exactly one after finitely many calls, with the carry nonnegative again. -/
theorem chan_up_step (strength : ℚ) (hs : 0 < strength) (t : ℤ) (ht : t ≤ 255)
    (cur : ℤ) (carry : ℚ) (hc : 0 ≤ carry) (h0 : 0 ≤ cur) (h2 : cur ≤ t - 2) :
    ∃ (n : ℕ) (c' : ℚ),
      iterChan strength t n (cur, carry) = (cur + 1, c') ∧ 0 ≤ c' := by
  set inc := ((t - cur : ℤ) : ℚ) / strength with hinc
  have hpos : 0 < inc := by
    apply div_pos
    · have h2q : (2 : ℚ) ≤ ((t - cur : ℤ) : ℚ) := by
        exact_mod_cast (by omega : (2 : ℤ) ≤ t - cur)
      linarith
    · exact hs
  have hex : ∃ k : ℕ, 1 < carry + ((k : ℚ) + 1) * inc := by
    obtain ⟨k, hk⟩ := exists_nat_gt ((1 - carry) / inc)
    refine ⟨k, ?_⟩
    have h3 : 1 - carry < (k : ℚ) * inc := by
      rwa [div_lt_iff₀ hpos] at hk
    nlinarith [hpos]
  classical
  have hm : 1 < carry + ((Nat.find hex : ℚ) + 1) * inc := Nat.find_spec hex
  have hmin : ∀ j : ℕ, j < Nat.find hex → ¬ (1 < carry + ((j : ℚ) + 1) * inc) :=
    fun j hj => Nat.find_min hex hj
  have hrun := iterChan_stuck_up strength t cur (Nat.find hex) carry hc hmin hpos
  rw [← hinc] at hrun
  refine ⟨Nat.find hex + 1, carry + ((Nat.find hex : ℚ) + 1) * inc - 1, ?_, by linarith⟩
  rw [iterChan_add strength t (Nat.find hex) 1 (cur, carry), hrun]
  show chanStep strength t (cur, carry + (Nat.find hex : ℚ) * inc) = _
  rw [chanStep_eq]
  rw [if_pos (by rw [← hinc]; nlinarith [hm])]
  have hwrap : wrap256 (cur + 1) = cur + 1 := by
    unfold wrap256
    omega
  rw [hwrap, ← hinc]
  congr 1
  ring



/-- Climbing: a channel below its target reaches `target - 1`. -/
theorem chan_up_reach (strength : ℚ) (hs : 0 < strength) (t : ℤ) (ht : t ≤ 255) :
    ∀ (k : ℕ) (cur : ℤ) (carry : ℚ), 0 ≤ carry → 0 ≤ cur →
      cur + (k : ℤ) = t - 1 →
      ∃ n : ℕ, (iterChan strength t n (cur, carry)).1 = t - 1 := by
  intro k
  induction k with
  | zero =>
    intro cur carry _ _ hk
    exact ⟨0, by simpa [iterChan] using (by omega : cur = t - 1)⟩
  | succ k ih =>
    intro cur carry hc h0 hk
    obtain ⟨n₁, c₁, hrun, hc₁⟩ :=
      chan_up_step strength hs t ht cur carry hc h0 (by omega)
    obtain ⟨n₂, hn₂⟩ := ih (cur + 1) c₁ hc₁ (by omega) (by omega)
    exact ⟨n₁ + n₂, by rw [iterChan_add, hrun, hn₂]⟩

/-- Mirror of `iterChan_stuck_up` for a channel above its target. -/
theorem iterChan_stuck_down (strength : ℚ) (t : ℤ) (cur : ℤ) :
    ∀ (k : ℕ) (carry : ℚ), carry ≤ 0 →
      (∀ j : ℕ, j < k →
        ¬ (carry + ((j : ℚ) + 1) * (((t - cur : ℤ) : ℚ) / strength) < -1)) →
      ((t - cur : ℤ) : ℚ) / strength < 0 →
      iterChan strength t k (cur, carry)
        = (cur, carry + (k : ℚ) * (((t - cur : ℤ) : ℚ) / strength)) := by
  intro k
  induction k with
  | zero =>
    intro carry hc _ _
    simp [iterChan]
  | succ k ih =>
    intro carry hc hstuck hneg
    have h0 : ¬ (carry + ((t - cur : ℤ) : ℚ) / strength < -1) := by
      have := hstuck 0 (by omega)
      simpa using this
    have hle : ¬ (1 < carry + ((t - cur : ℤ) : ℚ) / strength) := by
      push_neg
      have : carry + ((t - cur : ℤ) : ℚ) / strength ≤ 0 :=
        add_nonpos hc (le_of_lt hneg)
      linarith
    show iterChan strength t k (chanStep strength t (cur, carry)) = _
    rw [chanStep_eq, if_neg hle, if_neg h0]
    rw [ih (carry + ((t - cur : ℤ) : ℚ) / strength)
      (add_nonpos hc (le_of_lt hneg))
      (by
        intro j hj
        have := hstuck (j + 1) (by omega)
        push_cast at this ⊢
        intro hcon
        apply this
        linarith [hcon])
      hneg]
    congr 1
    push_cast
    ring

/-- Mirror of `chan_up_step`: a channel at least 2 above its target is
decremented by exactly one after finitely many calls. -/
theorem chan_down_step (strength : ℚ) (hs : 0 < strength) (t : ℤ) (ht : 0 ≤ t)
    (cur : ℤ) (carry : ℚ) (hc : carry ≤ 0) (h255 : cur ≤ 255) (h2 : t + 2 ≤ cur) :
    ∃ (n : ℕ) (c' : ℚ),
      iterChan strength t n (cur, carry) = (cur - 1, c') ∧ c' ≤ 0 := by
  set inc := ((t - cur : ℤ) : ℚ) / strength with hinc
  have hneg : inc < 0 := by
    apply div_neg_of_neg_of_pos
    · have h2q : ((t - cur : ℤ) : ℚ) ≤ -2 := by
        exact_mod_cast (by omega : t - cur ≤ (-2 : ℤ))
      linarith
    · exact hs
  have hex : ∃ k : ℕ, carry + ((k : ℚ) + 1) * inc < -1 := by
    obtain ⟨k, hk⟩ := exists_nat_gt ((1 + carry) / (-inc))
    refine ⟨k, ?_⟩
    have h3 : 1 + carry < (k : ℚ) * (-inc) := by
      rwa [div_lt_iff₀ (by linarith : (0 : ℚ) < -inc)] at hk
    nlinarith [hneg]
  classical
  have hm : carry + ((Nat.find hex : ℚ) + 1) * inc < -1 := Nat.find_spec hex
  have hmin : ∀ j : ℕ, j < Nat.find hex → ¬ (carry + ((j : ℚ) + 1) * inc < -1) :=
    fun j hj => Nat.find_min hex hj
  have hrun := iterChan_stuck_down strength t cur (Nat.find hex) carry hc hmin hneg
  rw [← hinc] at hrun
  refine ⟨Nat.find hex + 1, carry + ((Nat.find hex : ℚ) + 1) * inc + 1, ?_, by linarith⟩
  rw [iterChan_add strength t (Nat.find hex) 1 (cur, carry), hrun]
  show chanStep strength t (cur, carry + (Nat.find hex : ℚ) * inc) = _
  rw [chanStep_eq]
  rw [if_neg (by rw [← hinc]; nlinarith [hm, hneg])]
  rw [if_pos (by rw [← hinc]; nlinarith [hm])]
  have hwrap : wrap256 (cur - 1) = cur - 1 := by
    unfold wrap256
    omega
  rw [hwrap, ← hinc]
  congr 1
  ring

/-- Descending: a channel above its target reaches `target + 1`. -/
theorem chan_down_reach (strength : ℚ) (hs : 0 < strength) (t : ℤ) (ht : 0 ≤ t) :
    ∀ (k : ℕ) (cur : ℤ) (carry : ℚ), carry ≤ 0 → cur ≤ 255 →
      cur - (k : ℤ) = t + 1 →
      ∃ n : ℕ, (iterChan strength t n (cur, carry)).1 = t + 1 := by
  intro k
  induction k with
  | zero =>
    intro cur carry _ _ hk
    exact ⟨0, by simpa [iterChan] using (by omega : cur = t + 1)⟩
  | succ k ih =>
    intro cur carry hc h255 hk
    obtain ⟨n₁, c₁, hrun, hc₁⟩ :=
      chan_down_step strength hs t ht cur carry hc h255 (by omega)
    obtain ⟨n₂, hn₂⟩ := ih (cur - 1) c₁ hc₁ (by omega) (by omega)
    exact ⟨n₁ + n₂, by rw [iterChan_add, hrun, hn₂]⟩

/-- From a fresh (zero) carry, a channel in `[0, 255]` eventually comes within
one unit of any target in `[0, 255]`. -/
theorem chan_reaches (strength : ℚ) (hs : 0 < strength) (t cur : ℤ)
    (ht0 : 0 ≤ t) (ht : t ≤ 255) (hc0 : 0 ≤ cur) (hc : cur ≤ 255) :
    ∃ n : ℕ, |t - (iterChan strength t n (cur, 0)).1| ≤ 1 := by
  by_cases h1 : 2 ≤ t - cur
  · obtain ⟨n, hn⟩ := chan_up_reach strength hs t ht ((t - 1 - cur).toNat) cur 0
      le_rfl hc0 (by omega)
    refine ⟨n, ?_⟩
    rw [hn, show t - (t - 1) = 1 by ring]
    norm_num
  · by_cases h2 : 2 ≤ cur - t
    · obtain ⟨n, hn⟩ := chan_down_reach strength hs t ht0 ((cur - t - 1).toNat) cur 0
        le_rfl hc (by omega)
      refine ⟨n, ?_⟩
      rw [hn, show t - (t + 1) = -1 by ring]
      norm_num
    · refine ⟨0, ?_⟩
      simpa [iterChan] using abs_le.mpr ⟨by omega, by omega⟩



/-- A single `chanStep` leaves the channel unchanged or moves it by one unit
(with `sf::Uint8` wrap). -/
theorem chanStep_fst_cases (strength : ℚ) (target cur : ℤ) (carry : ℚ) :
    (chanStep strength target (cur, carry)).1 = cur
    ∨ (chanStep strength target (cur, carry)).1 = wrap256 (cur + 1)
    ∨ (chanStep strength target (cur, carry)).1 = wrap256 (cur - 1) := by
  rw [chanStep_eq]
  split_ifs <;> simp

/-- The three channels of `interpolateAmbientLight` evolve independently: the
iterated full update projects to the iterated per-channel update. -/
theorem iterAmbient_proj (target : Color) (strength : ℚ) :
    ∀ (n : ℕ) (st : AmbientState),
      ((iterAmbient target strength n st).r, (iterAmbient target strength n st).shiftX)
        = iterChan strength target.r n (st.r, st.shiftX) ∧
      ((iterAmbient target strength n st).g, (iterAmbient target strength n st).shiftY)
        = iterChan strength target.g n (st.g, st.shiftY) ∧
      ((iterAmbient target strength n st).b, (iterAmbient target strength n st).shiftZ)
        = iterChan strength target.b n (st.b, st.shiftZ) := by
  intro n
  induction n with
  | zero => intro st; exact ⟨rfl, rfl, rfl⟩
  | succ n ih =>
    intro st
    refine ⟨?_, ?_, ?_⟩
    · exact ((ih (interpolateAmbientLight target strength st)).1).trans rfl
    · exact ((ih (interpolateAmbientLight target strength st)).2.1).trans rfl
    · exact ((ih (interpolateAmbientLight target strength st)).2.2).trans rfl

/-- C8: (1) a channel steps by ±1 — reducing the carry by 1 in magnitude — only
when the updated carry magnitude exceeds 1, and otherwise only accumulates the
carry; (2) consequently each `interpolateAmbientLight` call changes each channel
by at most one unit; (3) calling it repeatedly with the same target (from the
fresh zero carry the system starts with, channels and targets in the `Uint8`
range) eventually brings each channel of the ambient color within one unit of
the target. -/
theorem interpolateAmbientLight_props (strength : ℚ) (hs : 0 < strength) :
    (∀ (target cur : ℤ) (carry : ℚ),
      ((chanStep strength target (cur, carry)).1 ≠ cur →
        1 < |carry + ((target - cur : ℤ) : ℚ) / strength|) ∧
      ((chanStep strength target (cur, carry)).1 = cur ∧
          (chanStep strength target (cur, carry)).2
            = carry + ((target - cur : ℤ) : ℚ) / strength
        ∨ (chanStep strength target (cur, carry)).1 = wrap256 (cur + 1) ∧
          (chanStep strength target (cur, carry)).2
            = carry + ((target - cur : ℤ) : ℚ) / strength - 1
        ∨ (chanStep strength target (cur, carry)).1 = wrap256 (cur - 1) ∧
          (chanStep strength target (cur, carry)).2
            = carry + ((target - cur : ℤ) : ℚ) / strength + 1)) ∧
    (∀ (target : Color) (st : AmbientState),
      ((interpolateAmbientLight target strength st).r = st.r
        ∨ (interpolateAmbientLight target strength st).r = wrap256 (st.r + 1)
        ∨ (interpolateAmbientLight target strength st).r = wrap256 (st.r - 1)) ∧
      ((interpolateAmbientLight target strength st).g = st.g
        ∨ (interpolateAmbientLight target strength st).g = wrap256 (st.g + 1)
        ∨ (interpolateAmbientLight target strength st).g = wrap256 (st.g - 1)) ∧
      ((interpolateAmbientLight target strength st).b = st.b
        ∨ (interpolateAmbientLight target strength st).b = wrap256 (st.b + 1)
        ∨ (interpolateAmbientLight target strength st).b = wrap256 (st.b - 1))) ∧
    (∀ (target : Color) (st : AmbientState),
      st.shiftX = 0 → st.shiftY = 0 → st.shiftZ = 0 →
      0 ≤ target.r → target.r ≤ 255 → 0 ≤ target.g → target.g ≤ 255 →
      0 ≤ target.b → target.b ≤ 255 →
      0 ≤ st.r → st.r ≤ 255 → 0 ≤ st.g → st.g ≤ 255 → 0 ≤ st.b → st.b ≤ 255 →
      (∃ n : ℕ, |target.r - (iterAmbient target strength n st).r| ≤ 1) ∧
      (∃ n : ℕ, |target.g - (iterAmbient target strength n st).g| ≤ 1) ∧
      (∃ n : ℕ, |target.b - (iterAmbient target strength n st).b| ≤ 1)) := by
  refine ⟨?_, ?_, ?_⟩
  · intro target cur carry
    constructor
    · intro hne
      rw [chanStep_eq] at hne
      by_cases h1 : 1 < carry + ((target - cur : ℤ) : ℚ) / strength
      · calc (1 : ℚ) < carry + ((target - cur : ℤ) : ℚ) / strength := h1
          _ ≤ |carry + ((target - cur : ℤ) : ℚ) / strength| := le_abs_self _
      · by_cases h2 : carry + ((target - cur : ℤ) : ℚ) / strength < -1
        · calc (1 : ℚ) < -(carry + ((target - cur : ℤ) : ℚ) / strength) := by linarith
            _ ≤ |carry + ((target - cur : ℤ) : ℚ) / strength| := neg_le_abs _
        · rw [if_neg h1, if_neg h2] at hne
          exact absurd rfl hne
    · rw [chanStep_eq]
      split_ifs <;> simp
  · intro target st
    exact ⟨chanStep_fst_cases strength target.r st.r st.shiftX,
      chanStep_fst_cases strength target.g st.g st.shiftY,
      chanStep_fst_cases strength target.b st.b st.shiftZ⟩
  · intro target st hx hy hz htr0 htr htg0 htg htb0 htb hr0 hr hg0 hg hb0 hb
    refine ⟨?_, ?_, ?_⟩
    · obtain ⟨n, hn⟩ := chan_reaches strength hs target.r st.r htr0 htr hr0 hr
      refine ⟨n, ?_⟩
      have hp := (iterAmbient_proj target strength n st).1
      rw [hx] at hp
      have hval : (iterAmbient target strength n st).r
          = (iterChan strength target.r n (st.r, 0)).1 := by
        rw [← hp]
      rw [hval]
      exact hn
    · obtain ⟨n, hn⟩ := chan_reaches strength hs target.g st.g htg0 htg hg0 hg
      refine ⟨n, ?_⟩
      have hp := (iterAmbient_proj target strength n st).2.1
      rw [hy] at hp
      have hval : (iterAmbient target strength n st).g
          = (iterChan strength target.g n (st.g, 0)).1 := by
        rw [← hp]
      rw [hval]
      exact hn
    · obtain ⟨n, hn⟩ := chan_reaches strength hs target.b st.b htb0 htb hb0 hb
      refine ⟨n, ?_⟩
      have hp := (iterAmbient_proj target strength n st).2.2
      rw [hz] at hp
      have hval : (iterAmbient target strength n st).b
          = (iterChan strength target.b n (st.b, 0)).1 := by
        rw [← hp]
      rw [hval]
      exact hn



/-- Witness for C8's theorem at strength 2. -/
theorem interpolateAmbientLight_props_witness :
    (0 : ℚ) < 2 ∧
    (    (∀ (target cur : ℤ) (carry : ℚ),
      ((chanStep (2 : ℚ) target (cur, carry)).1 ≠ cur →
        1 < |carry + ((target - cur : ℤ) : ℚ) / (2 : ℚ)|) ∧
      ((chanStep (2 : ℚ) target (cur, carry)).1 = cur ∧
          (chanStep (2 : ℚ) target (cur, carry)).2
            = carry + ((target - cur : ℤ) : ℚ) / (2 : ℚ)
        ∨ (chanStep (2 : ℚ) target (cur, carry)).1 = wrap256 (cur + 1) ∧
          (chanStep (2 : ℚ) target (cur, carry)).2
            = carry + ((target - cur : ℤ) : ℚ) / (2 : ℚ) - 1
        ∨ (chanStep (2 : ℚ) target (cur, carry)).1 = wrap256 (cur - 1) ∧
          (chanStep (2 : ℚ) target (cur, carry)).2
            = carry + ((target - cur : ℤ) : ℚ) / (2 : ℚ) + 1)) ∧
    (∀ (target : Color) (st : AmbientState),
      ((interpolateAmbientLight target (2 : ℚ) st).r = st.r
        ∨ (interpolateAmbientLight target (2 : ℚ) st).r = wrap256 (st.r + 1)
        ∨ (interpolateAmbientLight target (2 : ℚ) st).r = wrap256 (st.r - 1)) ∧
      ((interpolateAmbientLight target (2 : ℚ) st).g = st.g
        ∨ (interpolateAmbientLight target (2 : ℚ) st).g = wrap256 (st.g + 1)
        ∨ (interpolateAmbientLight target (2 : ℚ) st).g = wrap256 (st.g - 1)) ∧
      ((interpolateAmbientLight target (2 : ℚ) st).b = st.b
        ∨ (interpolateAmbientLight target (2 : ℚ) st).b = wrap256 (st.b + 1)
        ∨ (interpolateAmbientLight target (2 : ℚ) st).b = wrap256 (st.b - 1))) ∧
    (∀ (target : Color) (st : AmbientState),
      st.shiftX = 0 → st.shiftY = 0 → st.shiftZ = 0 →
      0 ≤ target.r → target.r ≤ 255 → 0 ≤ target.g → target.g ≤ 255 →
      0 ≤ target.b → target.b ≤ 255 →
      0 ≤ st.r → st.r ≤ 255 → 0 ≤ st.g → st.g ≤ 255 → 0 ≤ st.b → st.b ≤ 255 →
      (∃ n : ℕ, |target.r - (iterAmbient target (2 : ℚ) n st).r| ≤ 1) ∧
      (∃ n : ℕ, |target.g - (iterAmbient target (2 : ℚ) n st).g| ≤ 1) ∧
      (∃ n : ℕ, |target.b - (iterAmbient target (2 : ℚ) n st).b| ≤ 1))) :=
  ⟨by norm_num, interpolateAmbientLight_props 2 (by norm_num)⟩


end Ungod
